import Mathlib

/-!
The retro8 graphics core (`src/vm/gfx.h`).

A shallow embedding of the pixel, sprite, palette, clip-rectangle and font
storage layer of retro8, followed by theorems about it.

Conventions of the embedding
* `uint8_t` storage is a `Nat` that is reduced `% 2 ^ 8` at every store
  (`u8`); `size_t` index arithmetic is reduced `% 2 ^ 64` (`size_t_of`).
* C++ integer promotion is followed: bitwise operators work on the promoted
  (unbounded here) value and only the store truncates.
* `%` and `/` on signed operands are the truncating `Int.tmod` / `Int.tdiv`.
* An unchecked array access is an `Option`: `none` stands for the undefined
  behaviour of an access outside the storage.
* C++ overloads `low()` / `low(c)` (and `high`, `transparent`) are split into
  a getter with the source name and a setter `setLow`, `setHigh`,
  `setTransparent`.
-/

namespace retro8
namespace gfx

/-! ## Types declared in `defines.h` -/

/-- Modelled from the spec: `coord_t` is declared in `defines.h`, which is not
under `src/`; the spec treats pixel coordinates as signed integers. -/
abbrev coord_t := Int

/-- Modelled from the spec: `color_t` is declared in `defines.h`, which is not
under `src/`; a logical color is an integer in `[0,15]` carried in an unsigned
8-bit enumeration, so a value of the type is a natural number. -/
abbrev color_t := Nat

/-! ## Constants -/

def PIXEL_TO_BYTE_RATIO : Nat := 2
def SPRITE_WIDTH : Nat := 8
def SPRITE_HEIGHT : Nat := 8
def GLYPH_WIDTH : Nat := 4
def GLYPH_HEIGHT : Nat := 6
def SPRITE_BYTES_PER_SPRITE_ROW : Nat := SPRITE_WIDTH / PIXEL_TO_BYTE_RATIO
def PALETTE_SIZE : Nat := 16
def SCREEN_WIDTH : Nat := 128
def SCREEN_HEIGHT : Nat := 128
def BYTES_PER_SCREEN : Nat := SCREEN_WIDTH * SCREEN_HEIGHT / PIXEL_TO_BYTE_RATIO
def SPRITE_SHEET_WIDTH : Nat := 128
def SPRITES_PER_SPRITE_SHEET_ROW : Nat := 16
def SPRITE_SHEET_WIDTH_IN_BYTES : Nat := SPRITE_SHEET_WIDTH / PIXEL_TO_BYTE_RATIO
def SPRITE_SHEET_HEIGHT : Nat := 128
def FONT_GLYPHS_COLUMNS : Nat := 16
def FONT_GLYPHS_ROWS : Nat := 10
def COLOR_COUNT : Nat := 16

/-! ## Machine integers -/

/-- Conversion of a promoted integer value to `uint8_t`. -/
def u8 (n : Nat) : Nat := n % 2 ^ 8

/-- Conversion of a signed value to `size_t` (64 bit, modular). -/
def size_t_of (z : Int) : Nat := (z % 2 ^ 64).toNat

/-- Conversion of an unsigned result to `size_t`. -/
def size_t_wrap (n : Nat) : Nat := n % 2 ^ 64

/-! ## `color_byte_t` -/

/-- Two 4-bit colors packed in one byte (`uint8_t value`). -/
structure color_byte_t where
  value : Nat
deriving DecidableEq, Repr

namespace color_byte_t

/-- Constructor `color_byte_t(low, high) : value(low | (high << 4))`. -/
def ofColors (low high : color_t) : color_byte_t :=
  ⟨u8 (low ||| (high <<< 4))⟩

/-- Getter `low()`: `value & 0x0F`. -/
def low (b : color_byte_t) : color_t := b.value &&& 0x0F

/-- Getter `high()`: `(value >> 4) & 0x0F`. -/
def high (b : color_byte_t) : color_t := (b.value >>> 4) &&& 0x0F

/-- Setter `low(color)`: `value = ((value & 0xf0) | color)`. -/
def setLow (b : color_byte_t) (color : color_t) : color_byte_t :=
  ⟨u8 ((b.value &&& 0xf0) ||| color)⟩

/-- Setter `high(color)`: `value = ((value & 0x0f) | color << 4)`. -/
def setHigh (b : color_byte_t) (color : color_t) : color_byte_t :=
  ⟨u8 ((b.value &&& 0x0f) ||| (color <<< 4))⟩

/-- Method `get(mod)`: `(mod % 2) == 0 ? low() : high()`. -/
def get (b : color_byte_t) (mod : coord_t) : color_t :=
  if Int.tmod mod 2 = 0 then b.low else b.high

/-- Method `set(mod, color)`:
`value = (mod % 2) == 0 ? ((value & 0xf0) | color) : ((value & 0x0f) | color << 4)`. -/
def set (b : color_byte_t) (mod : coord_t) (color : color_t) : color_byte_t :=
  ⟨u8 (if Int.tmod mod 2 = 0 then ((b.value &&& 0xf0) ||| color)
       else ((b.value &&& 0x0f) ||| (color <<< 4)))⟩

/-- Method `setBoth(low, high)`: `value = low | high << 4`. -/
def setBoth (_b : color_byte_t) (low high : color_t) : color_byte_t :=
  ⟨u8 (low ||| (high <<< 4))⟩

end color_byte_t

/-! ## `sprite_t`: a view into shared sprite-sheet memory -/

/-- A `sprite_t` has no members: it is a position inside a byte buffer, and
`reinterpret_cast<color_byte_t*>(this)` is the buffer from that position on.
`addr` is the position of `this` in the buffer. -/
structure sprite_t where
  addr : Nat
deriving DecidableEq, Repr

namespace sprite_t

/-- The subscript of `byteAt`: `y * SPRITE_SHEET_WIDTH_IN_BYTES + x / 2`,
evaluated in `size_t`. -/
def byteOffset (x y : coord_t) : Nat :=
  size_t_wrap (size_t_wrap (size_t_of y * SPRITE_SHEET_WIDTH_IN_BYTES) + size_t_of (Int.tdiv x 2))

/-- Method `byteAt(x, y)`: the byte `byteOffset x y` places after `this`. -/
def byteAt (s : sprite_t) (mem : List color_byte_t) (x y : coord_t) : Option color_byte_t :=
  mem[s.addr + byteOffset x y]?

/-- Method `get(x, y)`: `byteAt(x, y).get(x)`. -/
def get (s : sprite_t) (mem : List color_byte_t) (x y : coord_t) : Option color_t :=
  (s.byteAt mem x y).map (fun b => b.get x)

/-- Method `set(x, y, color)`: `byteAt(x, y).set(x, color)`, returning the
updated buffer. -/
def set (s : sprite_t) (mem : List color_byte_t) (x y : coord_t) (color : color_t) :
    Option (List color_byte_t) :=
  (s.byteAt mem x y).map (fun b => mem.set (s.addr + byteOffset x y) (b.set x color))

end sprite_t

/-! ## `sequential_sprite_t`: a sprite owning its 32 bytes -/

/-- Class `sequential_sprite_t` with its member `color_byte_t data[32]`. -/
structure sequential_sprite_t where
  data : List color_byte_t
deriving DecidableEq, Repr

namespace sequential_sprite_t

/-- The subscript of `byteAt`: `y * SPRITE_BYTES_PER_SPRITE_ROW + x / 2`,
evaluated in `size_t`. -/
def byteIndex (x y : coord_t) : Nat :=
  size_t_wrap (size_t_wrap (size_t_of y * SPRITE_BYTES_PER_SPRITE_ROW) + size_t_of (Int.tdiv x 2))

/-- Method `byteAt(x, y)`: `data[byteIndex x y]`; the array has 32 entries. -/
def byteAt (s : sequential_sprite_t) (x y : coord_t) : Option color_byte_t :=
  if byteIndex x y < 32 then s.data[byteIndex x y]? else none

/-- Method `get(x, y)`: `byteAt(x, y).get(x)`. -/
def get (s : sequential_sprite_t) (x y : coord_t) : Option color_t :=
  (s.byteAt x y).map (fun b => b.get x)

/-- Method `set(x, y, color)`: `byteAt(x, y).set(x, color)`. -/
def set (s : sequential_sprite_t) (x y : coord_t) (color : color_t) :
    Option sequential_sprite_t :=
  (s.byteAt x y).map (fun b => ⟨s.data.set (byteIndex x y) (b.set x color)⟩)

end sequential_sprite_t

/-! ## `color_t` enumerators and `colorForRGB` -/

namespace color_t

/-- Modelled from the spec: the enumerators of `color_t` are declared in
`defines.h`, which is not under `src/`; the sixteen logical colors are numbered
`0..15` in the order of the fixed system palette. -/
def BLACK : color_t := 0
/-- Modelled from the spec: enumerator of `color_t` (`defines.h`), logical color 1. -/
def DARK_BLUE : color_t := 1
/-- Modelled from the spec: enumerator of `color_t` (`defines.h`), logical color 2. -/
def DARK_PURPLE : color_t := 2
/-- Modelled from the spec: enumerator of `color_t` (`defines.h`), logical color 3. -/
def DARK_GREEN : color_t := 3
/-- Modelled from the spec: enumerator of `color_t` (`defines.h`), logical color 4. -/
def BROWN : color_t := 4
/-- Modelled from the spec: enumerator of `color_t` (`defines.h`), logical color 5. -/
def DARK_GREY : color_t := 5
/-- Modelled from the spec: enumerator of `color_t` (`defines.h`), logical color 6. -/
def LIGHT_GREY : color_t := 6
/-- Modelled from the spec: enumerator of `color_t` (`defines.h`), logical color 7. -/
def WHITE : color_t := 7
/-- Modelled from the spec: enumerator of `color_t` (`defines.h`), logical color 8. -/
def RED : color_t := 8
/-- Modelled from the spec: enumerator of `color_t` (`defines.h`), logical color 9. -/
def ORANGE : color_t := 9
/-- Modelled from the spec: enumerator of `color_t` (`defines.h`), logical color 10. -/
def YELLOW : color_t := 10
/-- Modelled from the spec: enumerator of `color_t` (`defines.h`), logical color 11. -/
def GREEN : color_t := 11
/-- Modelled from the spec: enumerator of `color_t` (`defines.h`), logical color 12. -/
def BLUE : color_t := 12
/-- Modelled from the spec: enumerator of `color_t` (`defines.h`), logical color 13. -/
def INDIGO : color_t := 13
/-- Modelled from the spec: enumerator of `color_t` (`defines.h`), logical color 14. -/
def PINK : color_t := 14
/-- Modelled from the spec: enumerator of `color_t` (`defines.h`), logical color 15. -/
def PEACH : color_t := 15

end color_t

/-- Conversion of a value to `uint32_t`. -/
def u32 (n : Nat) : Nat := n % 2 ^ 32

/-- Function `colorForRGB(uint32_t color)`: a `switch` on `color & 0x00ffffff`
with sixteen `case` labels; `none` is the `default: assert(false)` branch. -/
def colorForRGB (color : Nat) : Option color_t :=
  let key := u32 color &&& 0x00ffffff
  if key = 0x000000 then some color_t.BLACK
  else if key = 0x1D2B53 then some color_t.DARK_BLUE
  else if key = 0x7E2553 then some color_t.DARK_PURPLE
  else if key = 0x008751 then some color_t.DARK_GREEN
  else if key = 0xAB5236 then some color_t.BROWN
  else if key = 0x5F574F then some color_t.DARK_GREY
  else if key = 0xC2C3C7 then some color_t.LIGHT_GREY
  else if key = 0xFFF1E8 then some color_t.WHITE
  else if key = 0xFF004D then some color_t.RED
  else if key = 0xFFA300 then some color_t.ORANGE
  else if key = 0xFFEC27 then some color_t.YELLOW
  else if key = 0x00E436 then some color_t.GREEN
  else if key = 0x29ADFF then some color_t.BLUE
  else if key = 0x83769C then some color_t.INDIGO
  else if key = 0xFF77A8 then some color_t.PINK
  else if key = 0xFFCCAA then some color_t.PEACH
  else none

/-- The sixteen `case` labels of `colorForRGB`, in the order they are listed. -/
def rgbCases : List Nat :=
  [0x000000, 0x1D2B53, 0x7E2553, 0x008751, 0xAB5236, 0x5F574F, 0xC2C3C7, 0xFFF1E8,
   0xFF004D, 0xFFA300, 0xFFEC27, 0x00E436, 0x29ADFF, 0x83769C, 0xFF77A8, 0xFFCCAA]

/-! ## `ColorTable` -/

/-- Struct `ColorTable` with its member `std::array<uint32_t, COLOR_COUNT> table`. -/
structure ColorTable where
  table : List Nat
deriving DecidableEq, Repr

namespace ColorTable

/-- Method `get(c)`: `table[c]`; the array has `COLOR_COUNT` entries. -/
def get (t : ColorTable) (c : color_t) : Option Nat :=
  if c < COLOR_COUNT then t.table[c]? else none

/-- Modelled from the spec: `ColorTable::init` is defined outside `src/`. It
"builds, once, a 16-entry mapping LogicalColor → native display color from a
fixed compile-time 16-RGB-triple palette": entry `k` is the native color of the
`k`-th palette entry. `native` stands for the conversion of an RGB value to
the pixel format given to `init`. -/
def init (native : Nat → Nat) : ColorTable :=
  ⟨rgbCases.map (fun rgb => u32 (native rgb))⟩

end ColorTable

/-! ## `palette_t` -/

/-- Class `palette_t` with its member `std::array<uint8_t, COLOR_COUNT> colors`. -/
structure palette_t where
  colors : List Nat
deriving DecidableEq, Repr

namespace palette_t

/-- Read of `colors[i]`; the array has `COLOR_COUNT` entries. -/
def load (p : palette_t) (i : Nat) : Option Nat :=
  if i < COLOR_COUNT then p.colors[i]? else none

/-- Assignment `colors[i] = v`, with `v` converted to `uint8_t`. -/
def store (p : palette_t) (i : Nat) (v : Nat) : Option palette_t :=
  if i < COLOR_COUNT ∧ i < p.colors.length then some ⟨p.colors.set i (u8 v)⟩ else none

/-- Method `get(i)`: `color_t(colors[i] & 0x0F)`. -/
def get (p : palette_t) (i : color_t) : Option color_t :=
  (p.load i).map (fun b => b &&& 0x0F)

/-- Method `set(i, color)`: `colors[i] |= color | (colors[i] & 0x10)`. -/
def set (p : palette_t) (i : color_t) (color : color_t) : Option palette_t :=
  (p.load i).bind (fun b => p.store i (b ||| (color ||| (b &&& 0x10))))

/-- Method `transparent(i)`: `(colors[i] & 0x10) != 0`. -/
def transparent (p : palette_t) (i : color_t) : Option Bool :=
  (p.load i).map (fun b => b &&& 0x10 != 0)

/-- Method `transparent(i, f)`:
`colors[i] = f ? (colors[i] | 0x10) : (colors[i] & 0x0f)`. -/
def setTransparent (p : palette_t) (i : color_t) (f : Bool) : Option palette_t :=
  (p.load i).bind (fun b => p.store i (if f then b ||| 0x10 else b &&& 0x0f))

/-- Method `reset()`: `for (i = 0; i < COLOR_COUNT; ++i) colors[i] = i;` then
`transparent(color_t::BLACK, true)`. -/
def reset (p : palette_t) : Option palette_t :=
  ((List.range COLOR_COUNT).foldlM (fun (q : palette_t) (i : Nat) => q.store i i) p).bind
    (fun q => q.setTransparent color_t.BLACK true)

/-- Method `resetTransparency()`: `transparent(color_t::BLACK, true)` then
`for (i = 1; i < COLOR_COUNT; ++i) transparent(color_t(i), false)`. -/
def resetTransparency (p : palette_t) : Option palette_t :=
  (p.setTransparent color_t.BLACK true).bind
    (fun q => (List.range' 1 (COLOR_COUNT - 1)).foldlM
      (fun (r : palette_t) (i : Nat) => r.setTransparent (u8 i) false) q)

end palette_t

/-! ## `clip_rect_t` -/

/-- Struct `clip_rect_t` with its four `uint8_t` members. -/
structure clip_rect_t where
  x0 : Nat
  y0 : Nat
  x1 : Nat
  y1 : Nat
deriving DecidableEq, Repr

namespace clip_rect_t

/-- Method `reset()`: `x0 = y0 = 0; x1 = SCREEN_WIDTH; y1 = SCREEN_HEIGHT;`. -/
def reset (_r : clip_rect_t) : clip_rect_t :=
  { x0 := u8 (u8 0), y0 := u8 0, x1 := u8 SCREEN_WIDTH, y1 := u8 SCREEN_HEIGHT }

/-- Method `set(xs, ys, xe, ye)`: `x0 = xs; y0 = ys; x1 = xe; y1 = ye;`, the
arguments being converted to `uint8_t` at the call. -/
def set (_r : clip_rect_t) (xs ys xe ye : Nat) : clip_rect_t :=
  { x0 := u8 xs, y0 := u8 ys, x1 := u8 xe, y1 := u8 ye }

end clip_rect_t

/-! ## `Font` -/

/-- Class `Font` with its member
`sequential_sprite_t glyphs[FONT_GLYPHS_ROWS*FONT_GLYPHS_COLUMNS]`. -/
structure Font where
  glyphs : List sequential_sprite_t
deriving DecidableEq, Repr

namespace Font

/-- Method `glyph(char c)`: `&glyphs[c]`. The value of `c`, whether `char` is
signed or unsigned, is promoted to `int` and used as the subscript; the array
has `FONT_GLYPHS_ROWS*FONT_GLYPHS_COLUMNS` entries and the source makes no
test on `c`. -/
def glyph (f : Font) (c : Int) : Option sequential_sprite_t :=
  if 0 ≤ c ∧ c < ((FONT_GLYPHS_ROWS * FONT_GLYPHS_COLUMNS : Nat) : Int) then f.glyphs[c.toNat]?
  else none

end Font

/-! ## Sequences of calls -/

/-- One call on a `clip_rect_t`: `reset()` or `set(xs, ys, xe, ye)`. -/
inductive clip_call where
  | reset : clip_call
  | set : Nat → Nat → Nat → Nat → clip_call
deriving DecidableEq, Repr

/-- The effect of one call on a clip rectangle. -/
def clip_rect_t.call (r : clip_rect_t) : clip_call → clip_rect_t
  | clip_call.reset => r.reset
  | clip_call.set xs ys xe ye => r.set xs ys xe ye

/-- The rectangle left by `reset()` followed by the calls of `cs`, in order. -/
def clip_rect_t.afterCalls (r : clip_rect_t) (cs : List clip_call) : clip_rect_t :=
  cs.foldl clip_rect_t.call r.reset

/-- The property the spec names the ClipRect invariant: the four bounds lie in
`[0, 128]`, `x0 ≤ x1` and `y0 ≤ y1`. -/
def clip_rect_t.wellFormed (r : clip_rect_t) : Prop :=
  r.x0 ≤ SCREEN_WIDTH ∧ r.x1 ≤ SCREEN_WIDTH ∧ r.y0 ≤ SCREEN_HEIGHT ∧ r.y1 ≤ SCREEN_HEIGHT ∧
    r.x0 ≤ r.x1 ∧ r.y0 ≤ r.y1

instance (r : clip_rect_t) : Decidable r.wellFormed := by
  unfold clip_rect_t.wellFormed
  infer_instance

/-- The arguments of a call fit the `uint8_t` parameters of `set`. -/
def clip_call.eightBit : clip_call → Prop
  | clip_call.reset => True
  | clip_call.set xs ys xe ye => xs < 256 ∧ ys < 256 ∧ xe < 256 ∧ ye < 256

/-- The arguments of a call are themselves a well-formed rectangle. -/
def clip_call.wellFormedArgs : clip_call → Prop
  | clip_call.reset => True
  | clip_call.set xs ys xe ye => (clip_rect_t.mk xs ys xe ye).wellFormed

/-- One call on a `palette_t`: `reset()`, `resetTransparency()`, `set(i, color)`
or `transparent(i, f)`. -/
inductive palette_call where
  | reset : palette_call
  | resetTransparency : palette_call
  | set : Nat → Nat → palette_call
  | transparent : Nat → Bool → palette_call
deriving DecidableEq, Repr

/-- The arguments of a call are logical colors: `i` and `color` lie in `[0,15]`. -/
def palette_call.inRange : palette_call → Prop
  | palette_call.reset => True
  | palette_call.resetTransparency => True
  | palette_call.set i c => i ≤ 15 ∧ c ≤ 15
  | palette_call.transparent i _ => i ≤ 15

/-- The effect of one call on a palette. -/
def palette_t.call (p : palette_t) : palette_call → Option palette_t
  | palette_call.reset => p.reset
  | palette_call.resetTransparency => p.resetTransparency
  | palette_call.set i c => p.set i c
  | palette_call.transparent i f => p.setTransparent i f

/-- The palette left by `reset()` followed by the calls of `cs`, in order. -/
def palette_t.afterCalls (p : palette_t) (cs : List palette_call) : Option palette_t :=
  p.reset.bind (fun q => cs.foldlM palette_t.call q)

/-- The palette left by the calls `set(i, c)` for the colors `c` of `cs`, in
order. -/
def palette_t.setAll (p : palette_t) (i : color_t) (cs : List color_t) : Option palette_t :=
  cs.foldlM (fun (q : palette_t) (c : color_t) => q.set i c) p

/-- The property the claims name the packed palette-entry invariant: the
palette has its sixteen bytes and every one of them is below `0x20`. -/
def palette_t.packed (p : palette_t) : Prop :=
  p.colors.length = 16 ∧ ∀ b ∈ p.colors, b < 0x20

/-! ## Bit-level facts -/

theorem and_0f_eq_mod (a : Nat) : a &&& 0x0f = a % 16 :=
  Nat.and_pow_two_sub_one_eq_mod a 4

theorem shr4_eq_div (a : Nat) : a >>> 4 = a / 16 :=
  Nat.shiftRight_eq_div_pow a 4

theorem and_mask_mod (a m : Nat) (hm : 255 &&& m = m) : a &&& m = (a % 256) &&& m := by
  have h : a % 256 = a &&& (2 ^ 8 - 1) := (Nat.and_pow_two_sub_one_eq_mod a 8).symm
  rw [h, Nat.and_assoc]
  simp [hm]

theorem or_mod_256 (a b : Nat) : (a ||| b) % 256 = (a % 256) ||| (b % 256) := by
  have h : ∀ z : Nat, z % 256 = z &&& (2 ^ 8 - 1) :=
    fun z => (Nat.and_pow_two_sub_one_eq_mod z 8).symm
  rw [h, h, h, Nat.and_distrib_right]

set_option maxRecDepth 1000000 in
theorem nibble_table :
    ∀ w < 256, ∀ c < 16,
      (((w &&& 0xf0) ||| c) % 256) % 16 = c ∧
      (((w &&& 0xf0) ||| c) % 256) / 16 % 16 = w / 16 % 16 ∧
      (((w &&& 0x0f) ||| (c <<< 4)) % 256) / 16 % 16 = c ∧
      (((w &&& 0x0f) ||| (c <<< 4)) % 256) % 16 = w % 16 := by
  decide

theorem nibble_facts (v c : Nat) (hc : c < 16) :
    (u8 ((v &&& 0xf0) ||| c)) &&& 0x0f = c ∧
    ((u8 ((v &&& 0xf0) ||| c)) >>> 4) &&& 0x0f = (v >>> 4) &&& 0x0f ∧
    ((u8 ((v &&& 0x0f) ||| (c <<< 4))) >>> 4) &&& 0x0f = c ∧
    (u8 ((v &&& 0x0f) ||| (c <<< 4))) &&& 0x0f = v &&& 0x0f := by
  have hw : v % 256 < 256 := Nat.mod_lt _ (by decide)
  have h := nibble_table (v % 256) hw c hc
  have e1 : v &&& 0xf0 = (v % 256) &&& 0xf0 := and_mask_mod v 0xf0 (by decide)
  have e2 : v &&& 0x0f = (v % 256) &&& 0x0f := and_mask_mod v 0x0f (by decide)
  have e3 : v / 16 % 16 = v % 256 / 16 % 16 := by omega
  have e4 : v % 16 = v % 256 % 16 := by omega
  simp only [u8, and_0f_eq_mod, shr4_eq_div] at *
  rw [e3, e4]
  simp only [Nat.reducePow]
  rw [e1]
  exact h

/-! ## Coordinates and subscripts -/

theorem size_t_of_nonneg (z : Int) (h0 : 0 ≤ z) (h1 : z < 2 ^ 64) : size_t_of z = z.toNat := by
  unfold size_t_of
  rw [Int.emod_eq_of_lt h0 h1]

theorem tdiv_two_nonneg (x : Int) (h0 : 0 ≤ x) : Int.tdiv x 2 = x / 2 :=
  Int.tdiv_eq_ediv h0 (by decide)

theorem tmod_two_nonneg (x : Int) (h0 : 0 ≤ x) : Int.tmod x 2 = x % 2 :=
  Int.tmod_eq_emod h0 (by decide)

/-- The truncating remainder by two vanishes exactly on the even integers. -/
theorem tmod_two_eq_zero_iff (x : Int) : Int.tmod x 2 = 0 ↔ x % 2 = 0 := by
  rw [← Int.dvd_iff_tmod_eq_zero]
  omega

theorem sprite_byteOffset_inbounds (x y : Int) (hx0 : 0 ≤ x) (hx : x < 128)
    (hy0 : 0 ≤ y) (hy : y < 128) :
    sprite_t.byteOffset x y = y.toNat * 64 + x.toNat / 2 := by
  have h1 : size_t_of y = y.toNat := size_t_of_nonneg y hy0 (by omega)
  have h2 : size_t_of (Int.tdiv x 2) = x.toNat / 2 := by
    rw [tdiv_two_nonneg x hx0, size_t_of_nonneg _ (by omega) (by omega)]
    omega
  simp only [sprite_t.byteOffset, h1, h2, size_t_wrap, SPRITE_SHEET_WIDTH_IN_BYTES,
    SPRITE_SHEET_WIDTH, PIXEL_TO_BYTE_RATIO]
  omega

theorem sequential_byteIndex_inbounds (x y : Int) (hx0 : 0 ≤ x) (hx : x < 8)
    (hy0 : 0 ≤ y) (hy : y < 8) :
    sequential_sprite_t.byteIndex x y = y.toNat * 4 + x.toNat / 2 := by
  have h1 : size_t_of y = y.toNat := size_t_of_nonneg y hy0 (by omega)
  have h2 : size_t_of (Int.tdiv x 2) = x.toNat / 2 := by
    rw [tdiv_two_nonneg x hx0, size_t_of_nonneg _ (by omega) (by omega)]
    omega
  simp only [sequential_sprite_t.byteIndex, h1, h2, size_t_wrap, SPRITE_BYTES_PER_SPRITE_ROW,
    SPRITE_WIDTH, PIXEL_TO_BYTE_RATIO]
  omega

/-! ## Nibble access in one byte -/

theorem color_byte_get_set_same (b : color_byte_t) (x : Int) (c : Nat) (hc : c < 16) :
    (b.set x c).get x = c := by
  have h := nibble_facts b.value c hc
  unfold color_byte_t.get color_byte_t.set color_byte_t.low color_byte_t.high
  by_cases hx : Int.tmod x 2 = 0
  · simp only [hx, if_true]; exact h.1
  · simp only [hx, if_false]; exact h.2.2.1

theorem color_byte_get_set_other (b : color_byte_t) (x x' : Int) (c : Nat) (hc : c < 16)
    (hpar : Int.tmod x 2 = 0 ↔ ¬ Int.tmod x' 2 = 0) :
    (b.set x c).get x' = b.get x' := by
  have h := nibble_facts b.value c hc
  unfold color_byte_t.get color_byte_t.set color_byte_t.low color_byte_t.high
  by_cases hx : Int.tmod x 2 = 0
  · have hx' : ¬ Int.tmod x' 2 = 0 := hpar.mp hx
    simp only [hx, hx', if_true, if_false]; exact h.2.1
  · have hx' : Int.tmod x' 2 = 0 := by
      by_contra hne
      exact hx (hpar.mpr hne)
    simp only [hx, hx', if_true, if_false]; exact h.2.2.2

/-- The nibble read by `get` is chosen by the parity of the coordinate. -/
theorem color_byte_get_parity (b : color_byte_t) (x : Int) :
    b.get x = (if Even x then b.low else b.high) := by
  have hev : Even x ↔ Int.tmod x 2 = 0 := by
    rw [tmod_two_eq_zero_iff, Int.even_iff]
  unfold color_byte_t.get
  by_cases hx : Int.tmod x 2 = 0
  · have he : Even x := hev.mpr hx
    simp only [hx, he, if_true]
  · have he : ¬ Even x := fun h => hx (hev.mp h)
    simp only [hx, he, if_false]

theorem xor_one_facts : ∀ x < 128, (x ^^^ 1) / 2 = x / 2 ∧ (x ^^^ 1) % 2 = 1 - x % 2 ∧
    (x ^^^ 1) < 128 := by
  decide

theorem xor_one_parity (x : Nat) (hx : x < 128) :
    (Int.tmod (x : Int) 2 = 0 ↔ ¬ Int.tmod ((x ^^^ 1 : Nat) : Int) 2 = 0) := by
  have h := (xor_one_facts x hx).2.1
  rw [tmod_two_eq_zero_iff, tmod_two_eq_zero_iff]
  omega


theorem sprite_set_get_aux (mem : List color_byte_t) (s : sprite_t) (x y c : Nat)
    (hmem : s.addr + 8192 ≤ mem.length) (hx : x < 128) (hy : y < 128) (hc : c ≤ 15) :
    ∃ mem', s.set mem x y c = some mem' ∧ s.get mem' x y = some c ∧
      s.get mem' ((x ^^^ 1 : Nat) : Int) y = s.get mem ((x ^^^ 1 : Nat) : Int) y ∧
      (s.get mem ((x ^^^ 1 : Nat) : Int) y).isSome = true := by
  have hxf := xor_one_facts x hx
  have hoff : sprite_t.byteOffset x y = y * 64 + x / 2 := by
    rw [sprite_byteOffset_inbounds x y (by omega) (by omega) (by omega) (by omega)]
    simp
  have hoff' : sprite_t.byteOffset ((x ^^^ 1 : Nat) : Int) y = y * 64 + x / 2 := by
    rw [sprite_byteOffset_inbounds _ y (by omega) (by omega) (by omega) (by omega)]
    simp
    omega
  have hk : s.addr + (y * 64 + x / 2) < mem.length := by omega
  have hget : mem[s.addr + (y * 64 + x / 2)]? = some mem[s.addr + (y * 64 + x / 2)] :=
    List.getElem?_eq_getElem hk
  refine ⟨mem.set (s.addr + (y * 64 + x / 2)) ((mem[s.addr + (y * 64 + x / 2)]).set x c),
    ?_, ?_, ?_, ?_⟩
  · simp [sprite_t.set, sprite_t.byteAt, hoff, hget]
  · simp [sprite_t.get, sprite_t.byteAt, hoff, hk]
    exact color_byte_get_set_same _ _ _ (by omega)
  · simp [sprite_t.get, sprite_t.byteAt, hoff', hk, hget]
    exact color_byte_get_set_other _ _ _ _ (by omega) (xor_one_parity x hx)
  · simp [sprite_t.get, sprite_t.byteAt, hoff', hget]

theorem sequential_set_get_aux (q : sequential_sprite_t) (u v c : Nat)
    (hq : q.data.length = 32) (hu : u < 8) (hv : v < 8) (hc : c ≤ 15) :
    ∃ q', q.set u v c = some q' ∧ q'.get u v = some c ∧
      q'.get ((u ^^^ 1 : Nat) : Int) v = q.get ((u ^^^ 1 : Nat) : Int) v ∧
      (q.get ((u ^^^ 1 : Nat) : Int) v).isSome = true := by
  have hxf := xor_one_facts u (by omega)
  have hoff : sequential_sprite_t.byteIndex u v = v * 4 + u / 2 := by
    rw [sequential_byteIndex_inbounds u v (by omega) (by omega) (by omega) (by omega)]
    simp
  have hoff' : sequential_sprite_t.byteIndex ((u ^^^ 1 : Nat) : Int) v = v * 4 + u / 2 := by
    rw [sequential_byteIndex_inbounds _ v (by omega) (by omega) (by omega) (by omega)]
    simp
    omega
  have hk : v * 4 + u / 2 < q.data.length := by omega
  have hk32 : v * 4 + u / 2 < 32 := by omega
  have hget : q.data[v * 4 + u / 2]? = some q.data[v * 4 + u / 2] :=
    List.getElem?_eq_getElem hk
  refine ⟨⟨q.data.set (v * 4 + u / 2) ((q.data[v * 4 + u / 2]).set u c)⟩, ?_, ?_, ?_, ?_⟩
  · simp [sequential_sprite_t.set, sequential_sprite_t.byteAt, hoff, hget, hk32]
  · simp [sequential_sprite_t.get, sequential_sprite_t.byteAt, hoff, hk, hk32]
    exact color_byte_get_set_same _ _ _ (by omega)
  · simp [sequential_sprite_t.get, sequential_sprite_t.byteAt, hoff', hk, hk32, hget]
    exact color_byte_get_set_other _ _ _ _ (by omega) (xor_one_parity u (by omega))
  · simp [sequential_sprite_t.get, sequential_sprite_t.byteAt, hoff', hget, hk32]

/-! ## Claims -/

/-- C1: for a `sprite_t` view with the whole 128x128 sheet (8192 bytes) behind
it and for a `sequential_sprite_t` with its 32 bytes, and for every buffer
content, every in-bounds pixel and every color `c` in `[0,15]`: `set(x,y,c)`
succeeds, `get(x,y)` then returns `c`, and the pixel `(x xor 1, y)` that shares
the byte reads the same color as before the `set`. -/
theorem sprite_set_then_get (mem : List color_byte_t) (s : sprite_t)
    (q : sequential_sprite_t) (x y u v c : Nat)
    (hmem : s.addr + 8192 ≤ mem.length) (hq : q.data.length = 32)
    (hx : x < 128) (hy : y < 128) (hu : u < 8) (hv : v < 8) (hc : c ≤ 15) :
    (∃ mem', s.set mem x y c = some mem' ∧ s.get mem' x y = some c ∧
      s.get mem' ((x ^^^ 1 : Nat) : Int) y = s.get mem ((x ^^^ 1 : Nat) : Int) y ∧
      (s.get mem ((x ^^^ 1 : Nat) : Int) y).isSome = true) ∧
    (∃ q', q.set u v c = some q' ∧ q'.get u v = some c ∧
      q'.get ((u ^^^ 1 : Nat) : Int) v = q.get ((u ^^^ 1 : Nat) : Int) v ∧
      (q.get ((u ^^^ 1 : Nat) : Int) v).isSome = true) :=
  ⟨sprite_set_get_aux mem s x y c hmem hx hy hc, sequential_set_get_aux q u v c hq hu hv hc⟩

/-- Witness of C1: the all-zero sheet and the all-zero sprite, pixel (5,3) of
each set to color 7. -/
theorem sprite_set_then_get_witness :
    ((sprite_t.mk 0).addr + 8192 ≤ (List.replicate 8192 (color_byte_t.mk 0)).length ∧
      (sequential_sprite_t.mk (List.replicate 32 (color_byte_t.mk 0))).data.length = 32) ∧
    ((∃ mem', (sprite_t.mk 0).set (List.replicate 8192 (color_byte_t.mk 0))
          ((5 : Nat) : Int) ((3 : Nat) : Int) 7 = some mem' ∧
        (sprite_t.mk 0).get mem' ((5 : Nat) : Int) ((3 : Nat) : Int) = some 7 ∧
        (sprite_t.mk 0).get mem' ((5 ^^^ 1 : Nat) : Int) ((3 : Nat) : Int) =
          (sprite_t.mk 0).get (List.replicate 8192 (color_byte_t.mk 0))
            ((5 ^^^ 1 : Nat) : Int) ((3 : Nat) : Int) ∧
        ((sprite_t.mk 0).get (List.replicate 8192 (color_byte_t.mk 0))
            ((5 ^^^ 1 : Nat) : Int) ((3 : Nat) : Int)).isSome = true) ∧
     (∃ q', (sequential_sprite_t.mk (List.replicate 32 (color_byte_t.mk 0))).set
          ((5 : Nat) : Int) ((3 : Nat) : Int) 7 = some q' ∧
        q'.get ((5 : Nat) : Int) ((3 : Nat) : Int) = some 7 ∧
        q'.get ((5 ^^^ 1 : Nat) : Int) ((3 : Nat) : Int) =
          (sequential_sprite_t.mk (List.replicate 32 (color_byte_t.mk 0))).get
            ((5 ^^^ 1 : Nat) : Int) ((3 : Nat) : Int) ∧
        ((sequential_sprite_t.mk (List.replicate 32 (color_byte_t.mk 0))).get
            ((5 ^^^ 1 : Nat) : Int) ((3 : Nat) : Int)).isSome = true)) :=
  ⟨⟨by simp only [List.length_replicate]; decide, by simp only [List.length_replicate]⟩,
   sprite_set_then_get (List.replicate 8192 (color_byte_t.mk 0)) (sprite_t.mk 0)
    (sequential_sprite_t.mk (List.replicate 32 (color_byte_t.mk 0))) 5 3 5 3 7
    (by simp only [List.length_replicate]; decide) (by simp only [List.length_replicate])
    (by decide) (by decide) (by decide) (by decide) (by decide)⟩

/-- C2: for every pixel byte and every signed coordinate `x`, negative ones
included, `get(x)` is `low()` when `x` is even and `high()` when `x` is odd,
`set(x,c)` is `low(c)` when `x` is even and `high(c)` when `x` is odd, and so
both are unchanged when `x` is replaced by `x + 2`. -/
theorem color_byte_get_set_by_parity (b : color_byte_t) (x : Int) (c : Nat) :
    b.get x = (if Even x then b.low else b.high) ∧
    b.set x c = (if Even x then b.setLow c else b.setHigh c) ∧
    b.get (x + 2) = b.get x ∧
    b.set (x + 2) c = b.set x c := by
  have hev : Even x ↔ Int.tmod x 2 = 0 := by
    rw [tmod_two_eq_zero_iff, Int.even_iff]
  have h2 : Int.tmod (x + 2) 2 = 0 ↔ Int.tmod x 2 = 0 := by
    rw [tmod_two_eq_zero_iff, tmod_two_eq_zero_iff]
    omega
  unfold color_byte_t.get color_byte_t.set color_byte_t.setLow color_byte_t.setHigh
  by_cases hx : Int.tmod x 2 = 0
  · have hx2 : Int.tmod (x + 2) 2 = 0 := h2.mpr hx
    have he : Even x := hev.mpr hx
    simp only [hx, hx2, he, if_true, and_self]
  · have hx2 : ¬ Int.tmod (x + 2) 2 = 0 := fun h => hx (h2.mp h)
    have he : ¬ Even x := fun h => hx (hev.mp h)
    simp only [hx, hx2, he, if_false, and_self]

set_option maxRecDepth 1000000 in
theorem pack_table : ∀ lo < 16, ∀ hi < 16,
    (lo ||| (hi <<< 4)) % 256 = lo + 16 * hi := by
  decide

/-- C7: for every pixel byte and every `lo`, `hi` in `[0,15]`, after
`setBoth(lo,hi)`, and after constructing `color_byte_t(lo,hi)`, `low()` is
`lo`, `high()` is `hi` and the stored value is `lo + 16*hi`. -/
theorem setBoth_roundtrip (b : color_byte_t) (lo hi : Nat) (hlo : lo ≤ 15) (hhi : hi ≤ 15) :
    ((b.setBoth lo hi).low = lo ∧ (b.setBoth lo hi).high = hi ∧
      (b.setBoth lo hi).value = lo + 16 * hi) ∧
    ((color_byte_t.ofColors lo hi).low = lo ∧ (color_byte_t.ofColors lo hi).high = hi ∧
      (color_byte_t.ofColors lo hi).value = lo + 16 * hi) := by
  have h := pack_table lo (by omega) hi (by omega)
  simp only [color_byte_t.setBoth, color_byte_t.ofColors, color_byte_t.low, color_byte_t.high,
    u8, Nat.reducePow]
  rw [h]
  simp only [and_0f_eq_mod, shr4_eq_div, and_true]
  refine ⟨⟨?_, ?_⟩, ?_, ?_⟩ <;> (show @Eq Nat _ _) <;> omega

/-- Witness of C7: `lo = 9`, `hi = 12` written over the byte `0xff`. -/
theorem setBoth_roundtrip_witness :
    (9 ≤ 15 ∧ 12 ≤ 15) ∧
    (((color_byte_t.mk 0xff).setBoth 9 12).low = 9 ∧
      ((color_byte_t.mk 0xff).setBoth 9 12).high = 12 ∧
      ((color_byte_t.mk 0xff).setBoth 9 12).value = 9 + 16 * 12) ∧
    ((color_byte_t.ofColors 9 12).low = 9 ∧ (color_byte_t.ofColors 9 12).high = 12 ∧
      (color_byte_t.ofColors 9 12).value = 9 + 16 * 12) :=
  ⟨⟨by decide, by decide⟩, setBoth_roundtrip (color_byte_t.mk 0xff) 9 12 (by decide) (by decide)⟩

/-- C8: for every pixel `(x,y)` of the 128x128 sheet, the subscript computed by
`sprite_t::byteAt` is `y*64 + x/2`, where `64 = SPRITE_SHEET_WIDTH/2` is the
row stride, and it is below `8192 = SPRITE_SHEET_WIDTH/2 * SPRITE_SHEET_HEIGHT`;
`get` reads the low nibble of that byte when `x` is even and the high nibble
when `x` is odd. -/
theorem sprite_byteAt_layout (x y : Int) (hx0 : 0 ≤ x) (hx : x < 128)
    (hy0 : 0 ≤ y) (hy : y < 128) :
    (sprite_t.byteOffset x y : Int) = y * 64 + x / 2 ∧
    (64 : Nat) = SPRITE_SHEET_WIDTH / 2 ∧
    sprite_t.byteOffset x y < 8192 ∧
    (8192 : Nat) = SPRITE_SHEET_WIDTH / 2 * SPRITE_SHEET_HEIGHT ∧
    ∀ (s : sprite_t) (mem : List color_byte_t),
      s.get mem x y = (mem[s.addr + sprite_t.byteOffset x y]?).map
        (fun b => if Even x then b.low else b.high) := by
  have hoff := sprite_byteOffset_inbounds x y hx0 hx hy0 hy
  refine ⟨by rw [hoff]; omega, by decide, by rw [hoff]; omega, by decide, ?_⟩
  intro s mem
  unfold sprite_t.get sprite_t.byteAt
  congr 1
  funext b
  exact color_byte_get_parity b x

/-- Witness of C8: the pixel (5,3). -/
theorem sprite_byteAt_layout_witness :
    ((0 : Int) ≤ 5 ∧ (5 : Int) < 128 ∧ (0 : Int) ≤ 3 ∧ (3 : Int) < 128) ∧
    ((sprite_t.byteOffset 5 3 : Int) = 3 * 64 + 5 / 2 ∧
    (64 : Nat) = SPRITE_SHEET_WIDTH / 2 ∧
    sprite_t.byteOffset 5 3 < 8192 ∧
    (8192 : Nat) = SPRITE_SHEET_WIDTH / 2 * SPRITE_SHEET_HEIGHT ∧
    ∀ (s : sprite_t) (mem : List color_byte_t),
      s.get mem 5 3 = (mem[s.addr + sprite_t.byteOffset 5 3]?).map
        (fun b => if Even (5 : Int) then b.low else b.high)) :=
  ⟨⟨by decide, by decide, by decide, by decide⟩,
   sprite_byteAt_layout 5 3 (by decide) (by decide) (by decide) (by decide)⟩

/-! ## Palette bytes -/

set_option maxRecDepth 1000000 in
theorem palette_table : ∀ w < 256,
    ((w ||| 0x10) % 256) &&& 0x10 = 0x10 ∧
    ((w ||| 0x10) % 256) &&& 0x0f = w &&& 0x0f ∧
    ((w &&& 0x0f) % 256) &&& 0x10 = 0 ∧
    ((w &&& 0x0f) % 256) &&& 0x0f = w &&& 0x0f ∧
    ∀ c < 16,
      ((w ||| (c ||| (w &&& 0x10))) % 256) &&& 0x0f = (w &&& 0x0f) ||| c ∧
      ((w ||| (c ||| (w &&& 0x10))) % 256) &&& 0x10 = w &&& 0x10 := by
  decide

/-- What the two writes of `transparent(i, f)` do to the fields of a byte. -/
theorem palette_flag_facts (b : Nat) :
    (u8 (b ||| 0x10)) &&& 0x10 = 0x10 ∧
    (u8 (b ||| 0x10)) &&& 0x0f = b &&& 0x0f ∧
    (u8 (b &&& 0x0f)) &&& 0x10 = 0 ∧
    (u8 (b &&& 0x0f)) &&& 0x0f = b &&& 0x0f := by
  have hw : b % 256 < 256 := Nat.mod_lt _ (by decide)
  have h := palette_table (b % 256) hw
  have e1 : b &&& 0x0f = (b % 256) &&& 0x0f := and_mask_mod b 0x0f (by decide)
  have e2 : (b ||| 0x10) % 256 = (b % 256 ||| 0x10) % 256 := by
    rw [or_mod_256, or_mod_256 (b % 256)]
    simp
  have e3 : ∀ z : Nat, z % 2 ^ 8 = z % 256 := fun _ => rfl
  simp only [u8, e3]
  rw [e1, e2]
  exact ⟨h.1, h.2.1, h.2.2.1, h.2.2.2.1⟩

/-- What the write of `set(i, color)` does to the fields of a byte. -/
theorem palette_set_facts (b c : Nat) (hc : c < 16) :
    (u8 (b ||| (c ||| (b &&& 0x10)))) &&& 0x0f = (b &&& 0x0f) ||| c ∧
    (u8 (b ||| (c ||| (b &&& 0x10)))) &&& 0x10 = b &&& 0x10 := by
  have hw : b % 256 < 256 := Nat.mod_lt _ (by decide)
  have h := (palette_table (b % 256) hw).2.2.2.2 c hc
  have e1 : b &&& 0x0f = (b % 256) &&& 0x0f := and_mask_mod b 0x0f (by decide)
  have e0 : b &&& 0x10 = (b % 256) &&& 0x10 := and_mask_mod b 0x10 (by decide)
  have e2 : (b ||| (c ||| (b &&& 0x10))) % 256 =
      (b % 256 ||| (c ||| (b % 256 &&& 0x10))) % 256 := by
    rw [or_mod_256, or_mod_256 (b % 256), e0]
    simp
  have e3 : ∀ z : Nat, z % 2 ^ 8 = z % 256 := fun _ => rfl
  simp only [u8, e3]
  rw [e2, e1, e0]
  exact h

/-! ## Palette operations -/

theorem palette_load_some (p : palette_t) (i : Nat) (hp : p.colors.length = 16) (hi : i < 16) :
    ∃ b, p.load i = some b := by
  have hk : i < p.colors.length := by omega
  exact ⟨p.colors[i], by simp [palette_t.load, COLOR_COUNT, hi, List.getElem?_eq_getElem hk]⟩

/-- A store into the sixteen-entry array succeeds, changes the entry written
and no other. -/
theorem palette_store_load (p : palette_t) (i v : Nat) (hp : p.colors.length = 16) (hi : i < 16) :
    ∃ p', p.store i v = some p' ∧ p'.colors.length = 16 ∧ p'.load i = some (u8 v) ∧
      ∀ j, j ≠ i → p'.load j = p.load j := by
  have hk : i < p.colors.length := by omega
  refine ⟨⟨p.colors.set i (u8 v)⟩, ?_, ?_, ?_, ?_⟩
  · simp [palette_t.store, COLOR_COUNT, hi, hk]
  · simp [hp]
  · simp [palette_t.load, COLOR_COUNT, hi, hk]
  · intro j hj
    have hij : ¬ i = j := fun h => hj h.symm
    simp [palette_t.load, List.getElem?_set, hij]

/-- One call of `transparent(i, f)`: it succeeds, sets the flag of `i`, and
leaves every display index and every other entry as it was. -/
theorem palette_setTransparent_spec (p : palette_t) (i : Nat) (f : Bool)
    (hp : p.colors.length = 16) (hi : i < 16) :
    ∃ p', p.setTransparent i f = some p' ∧ p'.colors.length = 16 ∧
      p'.transparent i = some f ∧ (∀ j, p'.get j = p.get j) ∧
      ∀ j, j ≠ i → p'.load j = p.load j := by
  obtain ⟨b, hl⟩ := palette_load_some p i hp hi
  obtain ⟨p', hs, hlen, hsame, hother⟩ :=
    palette_store_load p i (if f = true then b ||| 0x10 else b &&& 0x0f) hp hi
  have hb := palette_flag_facts b
  refine ⟨p', ?_, hlen, ?_, ?_, hother⟩
  · simp only [palette_t.setTransparent, hl, Option.some_bind]
    exact hs
  · simp only [palette_t.transparent, hsame, Option.map_some']
    cases f
    · simp [hb.2.2.1]
    · simp [hb.1]
  · intro j
    by_cases hj : j = i
    · subst hj
      simp only [palette_t.get, hsame, hl, Option.map_some']
      cases f
      · simp [hb.2.2.2]
      · simp [hb.2.1]
    · simp only [palette_t.get, hother j hj]

/-- The loop of `reset()`: afterwards every entry written holds its own index. -/
theorem palette_reset_loop (l : List Nat) (hl : ∀ i ∈ l, i < 16) :
    ∀ p : palette_t, p.colors.length = 16 →
      ∃ p', l.foldlM (fun (q : palette_t) (i : Nat) => q.store i i) p = some p' ∧
        p'.colors.length = 16 ∧
        ∀ j, p'.load j = if j ∈ l then some (u8 j) else p.load j := by
  induction l with
  | nil =>
    intro p hp
    exact ⟨p, rfl, hp, fun j => by simp⟩
  | cons i t ih =>
    intro p hp
    have hi : i < 16 := hl i (List.mem_cons_self _ _)
    obtain ⟨p1, hs, hlen1, hsame, hother⟩ := palette_store_load p i i hp hi
    obtain ⟨p', hf, hlen, hload⟩ :=
      ih (fun k hk => hl k (List.mem_cons_of_mem _ hk)) p1 hlen1
    refine ⟨p', ?_, hlen, ?_⟩
    · simp only [List.foldlM_cons, hs, Option.bind_eq_bind, Option.some_bind]
      exact hf
    · intro j
      rw [hload j]
      by_cases hjt : j ∈ t
      · simp [hjt]
      · by_cases hji : j = i
        · subst hji
          simp [hjt, hsame]
        · simp [hjt, hji, hother j hji]

/-- The loop of `resetTransparency()`: it keeps every display index, clears
the flag of the entries it visits and leaves the flag of the others. -/
theorem palette_clear_loop (l : List Nat) (hl : ∀ i ∈ l, i < 16) :
    ∀ p : palette_t, p.colors.length = 16 →
      ∃ p', l.foldlM (fun (r : palette_t) (i : Nat) => r.setTransparent (u8 i) false) p
          = some p' ∧
        p'.colors.length = 16 ∧ (∀ j, p'.get j = p.get j) ∧
        ∀ j, p'.transparent j = if j ∈ l then some false else p.transparent j := by
  induction l with
  | nil =>
    intro p hp
    exact ⟨p, rfl, hp, fun _ => rfl, fun j => by simp⟩
  | cons i t ih =>
    intro p hp
    have hi : i < 16 := hl i (List.mem_cons_self _ _)
    have hu : u8 i = i := Nat.mod_eq_of_lt (by omega)
    obtain ⟨p1, hs, hlen1, hflag, hget1, hother⟩ :=
      palette_setTransparent_spec p i false hp hi
    obtain ⟨p', hf, hlen, hget, htr⟩ :=
      ih (fun k hk => hl k (List.mem_cons_of_mem _ hk)) p1 hlen1
    refine ⟨p', ?_, hlen, ?_, ?_⟩
    · simp only [List.foldlM_cons, hu, hs, Option.bind_eq_bind, Option.some_bind]
      exact hf
    · intro j
      rw [hget j, hget1 j]
    · intro j
      rw [htr j]
      by_cases hjt : j ∈ t
      · simp [hjt]
      · by_cases hji : j = i
        · subst hji
          simp [hjt, hflag]
        · simp [hjt, hji, palette_t.transparent, hother j hji]

theorem index_byte_table : ∀ i < 16, u8 i &&& 0x0F = i ∧ (u8 i &&& 0x10 != 0) = false := by
  decide

/-- What `reset()` leaves behind, for any prior content of the sixteen bytes. -/
theorem palette_reset_spec (p : palette_t) (hp : p.colors.length = 16) :
    ∃ p', p.reset = some p' ∧ p'.colors.length = 16 ∧
      (∀ i : Nat, i < 16 → p'.get i = some i) ∧ p'.transparent 0 = some true ∧
      ∀ i : Nat, 1 ≤ i → i < 16 → p'.transparent i = some false := by
  obtain ⟨p1, hf, hlen1, hload⟩ :=
    palette_reset_loop (List.range 16) (fun i hi => List.mem_range.mp hi) p hp
  obtain ⟨p', hs, hlen, hflag, hget, hother⟩ :=
    palette_setTransparent_spec p1 0 true hlen1 (by decide)
  refine ⟨p', ?_, hlen, ?_, hflag, ?_⟩
  · simp only [palette_t.reset, COLOR_COUNT, color_t.BLACK, hf, Option.some_bind]
    exact hs
  · intro i hi
    rw [hget i]
    simp only [palette_t.get, hload i, List.mem_range, hi, if_true, Option.map_some']
    exact congrArg some (index_byte_table i hi).1
  · intro i h1 hi
    have hne : i ≠ 0 := by omega
    simp only [palette_t.transparent, hother i hne, hload i, List.mem_range, hi, if_true,
      Option.map_some']
    exact congrArg some (index_byte_table i hi).2

/-- What `resetTransparency()` leaves behind, for any prior content. -/
theorem palette_resetTransparency_spec (p : palette_t) (hp : p.colors.length = 16) :
    ∃ p', p.resetTransparency = some p' ∧ p'.colors.length = 16 ∧
      (∀ i, p'.get i = p.get i) ∧ p'.transparent 0 = some true ∧
      ∀ i : Nat, 1 ≤ i → i < 16 → p'.transparent i = some false := by
  obtain ⟨p1, hs, hlen1, hflag, hget1, _⟩ :=
    palette_setTransparent_spec p 0 true hp (by decide)
  obtain ⟨p', hf, hlen, hget, htr⟩ :=
    palette_clear_loop (List.range' 1 15)
      (fun i hi => by have := List.mem_range'_1.mp hi; omega) p1 hlen1
  refine ⟨p', ?_, hlen, ?_, ?_, ?_⟩
  · simp only [palette_t.resetTransparency, COLOR_COUNT, color_t.BLACK, hs, Option.some_bind]
    exact hf
  · intro i
    rw [hget i, hget1 i]
  · rw [htr 0, hflag]
    simp
  · intro i h1 hi
    have hm : i ∈ List.range' 1 15 := List.mem_range'_1.mpr (by omega)
    rw [htr i]
    simp [hm]

/-- One call of `set(i, color)`: it succeeds and ORs the color into the
display index. -/
theorem palette_set_spec (p : palette_t) (i c : Nat)
    (hp : p.colors.length = 16) (hi : i < 16) (hc : c < 16) :
    ∃ old p', p.get i = some old ∧ p.set i c = some p' ∧ p'.colors.length = 16 ∧
      p'.get i = some (old ||| c) := by
  obtain ⟨b, hl⟩ := palette_load_some p i hp hi
  obtain ⟨p', hs, hlen, hg, _⟩ :=
    palette_store_load p i (b ||| (c ||| (b &&& 0x10))) hp hi
  refine ⟨b &&& 0x0F, p', ?_, ?_, hlen, ?_⟩
  · simp only [palette_t.get, hl, Option.map_some']
  · simp only [palette_t.set, hl, Option.some_bind]
    exact hs
  · simp only [palette_t.get, hg, Option.map_some']
    exact congrArg some (palette_set_facts b c hc).1

/-- C3: for every palette state, every index `i` and color `c` in `[0,15]`,
`set(i,c)` succeeds and afterwards `get(i)` is the old `get(i)` OR-ed with `c`,
a bitwise accumulation and not an overwrite; after `reset()`, `set(3,7)` makes
`get(3)` return `7`, and `set(3,4)` makes it return `7` as well, not `4`. -/
theorem palette_set_or_merges (p : palette_t) (i c : Nat)
    (hp : p.colors.length = 16) (hi : i ≤ 15) (hc : c ≤ 15) :
    (∃ old p', p.get i = some old ∧ p.set i c = some p' ∧ p'.get i = some (old ||| c)) ∧
    (∃ q r, p.reset = some q ∧ q.set 3 7 = some r ∧ r.get 3 = some 7) ∧
    (∃ q r, p.reset = some q ∧ q.set 3 4 = some r ∧ r.get 3 = some 7) := by
  obtain ⟨q, hq, hlen, hget, _, _⟩ := palette_reset_spec p hp
  refine ⟨?_, ?_, ?_⟩
  · obtain ⟨old, p', h1, h2, _, h3⟩ := palette_set_spec p i c hp (by omega) (by omega)
    exact ⟨old, p', h1, h2, h3⟩
  · obtain ⟨old, r, h1, h2, _, h3⟩ := palette_set_spec q 3 7 hlen (by decide) (by decide)
    have ho : old = 3 := by
      have := hget 3 (by decide)
      rw [h1] at this
      exact Option.some.inj this
    subst ho
    exact ⟨q, r, hq, h2, h3⟩
  · obtain ⟨old, r, h1, h2, _, h3⟩ := palette_set_spec q 3 4 hlen (by decide) (by decide)
    have ho : old = 3 := by
      have := hget 3 (by decide)
      rw [h1] at this
      exact Option.some.inj this
    subst ho
    exact ⟨q, r, hq, h2, h3⟩

/-- Witness of C3: the palette whose sixteen bytes are `0x15`, index 2, color 8. -/
theorem palette_set_or_merges_witness :
    ((palette_t.mk (List.replicate 16 0x15)).colors.length = 16 ∧ 2 ≤ 15 ∧ 8 ≤ 15) ∧
    ((∃ old p', (palette_t.mk (List.replicate 16 0x15)).get 2 = some old ∧
        (palette_t.mk (List.replicate 16 0x15)).set 2 8 = some p' ∧
        p'.get 2 = some (old ||| 8)) ∧
     (∃ q r, (palette_t.mk (List.replicate 16 0x15)).reset = some q ∧
        q.set 3 7 = some r ∧ r.get 3 = some 7) ∧
     (∃ q r, (palette_t.mk (List.replicate 16 0x15)).reset = some q ∧
        q.set 3 4 = some r ∧ r.get 3 = some 7)) :=
  ⟨⟨by decide, by decide, by decide⟩,
   palette_set_or_merges (palette_t.mk (List.replicate 16 0x15)) 2 8
    (by decide) (by decide) (by decide)⟩

/-- C4: for every prior palette state, `reset()` succeeds and afterwards
`get(i) == i` for all `i` in `[0,15]`, `transparent(0)` is true and
`transparent(i)` is false for every `i` in `[1,15]`. -/
theorem palette_reset_identity (p : palette_t) (hp : p.colors.length = 16) :
    ∃ p', p.reset = some p' ∧
      (∀ i : Nat, i ≤ 15 → p'.get i = some i) ∧
      p'.transparent 0 = some true ∧
      ∀ i : Nat, 1 ≤ i → i ≤ 15 → p'.transparent i = some false := by
  obtain ⟨p', h1, _, h2, h3, h4⟩ := palette_reset_spec p hp
  exact ⟨p', h1, fun i hi => h2 i (by omega), h3, fun i h hi => h4 i h (by omega)⟩

/-- Witness of C4: the palette whose sixteen bytes are `0xff`. -/
theorem palette_reset_identity_witness :
    (palette_t.mk (List.replicate 16 0xff)).colors.length = 16 ∧
    ∃ p', (palette_t.mk (List.replicate 16 0xff)).reset = some p' ∧
      (∀ i : Nat, i ≤ 15 → p'.get i = some i) ∧
      p'.transparent 0 = some true ∧
      ∀ i : Nat, 1 ≤ i → i ≤ 15 → p'.transparent i = some false :=
  ⟨by decide, palette_reset_identity (palette_t.mk (List.replicate 16 0xff)) (by decide)⟩

/-- C5: for every palette state, whatever its bytes, every index `i` in
`[0,15]` and every boolean `t`: `transparent(i,t)` succeeds, afterwards
`transparent(i)` returns `t` and `get(i)` returns the display index it
returned before. -/
theorem palette_transparent_roundtrip (p : palette_t) (i : Nat) (t : Bool)
    (hp : p.colors.length = 16) (hi : i ≤ 15) :
    ∃ p', p.setTransparent i t = some p' ∧ p'.transparent i = some t ∧
      p'.get i = p.get i ∧ (p.get i).isSome = true := by
  obtain ⟨p', h1, _, h2, h3, _⟩ := palette_setTransparent_spec p i t hp (by omega)
  obtain ⟨b, hb⟩ := palette_load_some p i hp (by omega)
  exact ⟨p', h1, h2, h3 i, by simp [palette_t.get, hb]⟩

/-- Witness of C5: the palette whose sixteen bytes are `0xff`, index 9 made
opaque. -/
theorem palette_transparent_roundtrip_witness :
    ((palette_t.mk (List.replicate 16 0xff)).colors.length = 16 ∧ 9 ≤ 15) ∧
    ∃ p', (palette_t.mk (List.replicate 16 0xff)).setTransparent 9 false = some p' ∧
      p'.transparent 9 = some false ∧
      p'.get 9 = (palette_t.mk (List.replicate 16 0xff)).get 9 ∧
      ((palette_t.mk (List.replicate 16 0xff)).get 9).isSome = true :=
  ⟨⟨by decide, by decide⟩,
   palette_transparent_roundtrip (palette_t.mk (List.replicate 16 0xff)) 9 false
    (by decide) (by decide)⟩

/-- C6: for every palette state, `resetTransparency()` succeeds and afterwards
`get(i)` is what it was for every `i` in `[0,15]`, `transparent(0)` is true and
`transparent(i)` is false for every `i` in `[1,15]`. -/
theorem palette_resetTransparency_frame (p : palette_t) (hp : p.colors.length = 16) :
    ∃ p', p.resetTransparency = some p' ∧
      (∀ i : Nat, i ≤ 15 → p'.get i = p.get i ∧ (p.get i).isSome = true) ∧
      p'.transparent 0 = some true ∧
      ∀ i : Nat, 1 ≤ i → i ≤ 15 → p'.transparent i = some false := by
  obtain ⟨p', h1, _, h2, h3, h4⟩ := palette_resetTransparency_spec p hp
  refine ⟨p', h1, ?_, h3, fun i h hi => h4 i h (by omega)⟩
  intro i hi
  obtain ⟨b, hb⟩ := palette_load_some p i hp (by omega)
  exact ⟨h2 i, by simp [palette_t.get, hb]⟩

/-- Witness of C6: the palette whose sixteen bytes are `0x1a`. -/
theorem palette_resetTransparency_frame_witness :
    (palette_t.mk (List.replicate 16 0x1a)).colors.length = 16 ∧
    ∃ p', (palette_t.mk (List.replicate 16 0x1a)).resetTransparency = some p' ∧
      (∀ i : Nat, i ≤ 15 → p'.get i = (palette_t.mk (List.replicate 16 0x1a)).get i ∧
        ((palette_t.mk (List.replicate 16 0x1a)).get i).isSome = true) ∧
      p'.transparent 0 = some true ∧
      ∀ i : Nat, 1 ≤ i → i ≤ 15 → p'.transparent i = some false :=
  ⟨by decide,
   palette_resetTransparency_frame (palette_t.mk (List.replicate 16 0x1a)) (by decide)⟩

/-- With 8-bit arguments, `set` stores exactly its arguments. -/
theorem clip_rect_reset_set_aux (r : clip_rect_t) (a b c d : Nat)
    (ha : a < 256) (hb : b < 256) (hc : c < 256) (hd : d < 256) :
    r.set a b c d = ⟨a, b, c, d⟩ := by
  simp only [clip_rect_t.set, u8, Nat.reducePow, Nat.mod_eq_of_lt ha, Nat.mod_eq_of_lt hb,
    Nat.mod_eq_of_lt hc, Nat.mod_eq_of_lt hd]

/-- C10: for every prior clip rectangle, `reset()` yields
`(0, 0, 128, 128)`, the stored bounds being `SCREEN_WIDTH` and `SCREEN_HEIGHT`
untruncated, and for all 8-bit `a`, `b`, `c`, `d`, `set(a,b,c,d)` yields
exactly `(a, b, c, d)`. -/
theorem clip_rect_reset_set (r : clip_rect_t) (a b c d : Nat)
    (ha : a < 256) (hb : b < 256) (hc : c < 256) (hd : d < 256) :
    r.reset = ⟨0, 0, 128, 128⟩ ∧
    r.reset.x1 = SCREEN_WIDTH ∧ r.reset.y1 = SCREEN_HEIGHT ∧
    r.set a b c d = ⟨a, b, c, d⟩ := by
  refine ⟨rfl, rfl, rfl, ?_⟩
  simp only [clip_rect_t.set, u8, Nat.reducePow, Nat.mod_eq_of_lt ha, Nat.mod_eq_of_lt hb,
    Nat.mod_eq_of_lt hc, Nat.mod_eq_of_lt hd]

/-- Witness of C10: the rectangle `(200, 10, 5, 255)`, whose bounds are not
ordered, set over `(1, 2, 3, 4)`. -/
theorem clip_rect_reset_set_witness :
    ((200 : Nat) < 256 ∧ (10 : Nat) < 256 ∧ (5 : Nat) < 256 ∧ (255 : Nat) < 256) ∧
    ((clip_rect_t.mk 1 2 3 4).reset = ⟨0, 0, 128, 128⟩ ∧
     (clip_rect_t.mk 1 2 3 4).reset.x1 = SCREEN_WIDTH ∧
     (clip_rect_t.mk 1 2 3 4).reset.y1 = SCREEN_HEIGHT ∧
     (clip_rect_t.mk 1 2 3 4).set 200 10 5 255 = ⟨200, 10, 5, 255⟩) :=
  ⟨⟨by decide, by decide, by decide, by decide⟩,
   clip_rect_reset_set (clip_rect_t.mk 1 2 3 4) 200 10 5 255
    (by decide) (by decide) (by decide) (by decide)⟩

/-! ## `colorForRGB` -/

/-- The `switch` key: the low 24 bits of the 32-bit argument. -/
theorem colorForRGB_key (color : Nat) : u32 color &&& 0x00ffffff = color % 2 ^ 24 := by
  have h : u32 color &&& (2 ^ 24 - 1) = u32 color % 2 ^ 24 :=
    Nat.and_pow_two_sub_one_eq_mod (u32 color) 24
  have h2 : u32 color % 2 ^ 24 = color % 2 ^ 24 := by
    unfold u32
    omega
  simp only [Nat.reducePow, Nat.reduceSub] at h h2 ⊢
  rw [h, h2]

theorem colorForRGB_isSome_iff (color : Nat) :
    (colorForRGB color).isSome = true ↔ color % 2 ^ 24 ∈ rgbCases := by
  unfold colorForRGB
  simp only [colorForRGB_key]
  generalize color % 2 ^ 24 = k
  constructor
  · intro h
    by_contra hk
    simp only [rgbCases, List.mem_cons, List.mem_singleton, List.not_mem_nil, or_false,
      not_or] at hk
    obtain ⟨h0, h1, h2, h3, h4, h5, h6, h7, h8, h9, h10, h11, h12, h13, h14, h15⟩ := hk
    simp only [h0, h1, h2, h3, h4, h5, h6, h7, h8, h9, h10, h11, h12, h13, h14, h15, if_false] at h
    exact absurd h (by decide)
  · intro hk
    simp only [rgbCases, List.mem_cons, List.mem_singleton, List.not_mem_nil, or_false] at hk
    rcases hk with rfl | rfl | rfl | rfl | rfl | rfl | rfl | rfl | rfl | rfl | rfl | rfl | rfl | rfl | rfl | rfl <;> decide

theorem colorForRGB_low_bits (color : Nat) :
    colorForRGB color = colorForRGB (color % 2 ^ 24) := by
  unfold colorForRGB
  simp only [colorForRGB_key, Nat.mod_mod]

theorem colorForRGB_kth : ∀ k : Nat, k < 16 → rgbCases[k]?.bind colorForRGB = some k := by
  decide

theorem colorForRGB_onto : ∀ c : Nat, c < 16 → ∃ rgb ∈ rgbCases, colorForRGB rgb = some c := by
  decide


theorem rgbCases_index (a : Nat) (ha : a ∈ rgbCases) :
    ∃ k : Nat, k < 16 ∧ rgbCases[k]? = some a := by
  obtain ⟨k, hk, h⟩ := List.mem_iff_getElem.mp ha
  exact ⟨k, hk, by rw [List.getElem?_eq_getElem hk, h]⟩

theorem colorForRGB_of_index (k a : Nat) (hk : k < 16) (h : rgbCases[k]? = some a) :
    colorForRGB a = some k := by
  have := colorForRGB_kth k hk
  rw [h] at this
  exact this

/-- C9: `colorForRGB` returns a color exactly when the low 24 bits of its
32-bit argument are one of the sixteen `case` labels, the top 8 bits being
ignored, and otherwise reaches `assert(false)`; the `k`-th label maps to logical
color `k`, so on the labels the function is one-to-one and onto `0..15`; and
in a sixteen-entry table filled from the same labels, `get(colorForRGB(rgb))`
is the entry made from `rgb`. -/
theorem colorForRGB_exact_match (color : Nat) (native : Nat → Nat) :
    ((colorForRGB color).isSome = true ↔ color % 2 ^ 24 ∈ rgbCases) ∧
    (colorForRGB color = none ↔ ¬ color % 2 ^ 24 ∈ rgbCases) ∧
    colorForRGB color = colorForRGB (color % 2 ^ 24) ∧
    rgbCases.length = 16 ∧
    (∀ k : Nat, k < 16 → rgbCases[k]?.bind colorForRGB = some k) ∧
    (∀ a ∈ rgbCases, ∀ b ∈ rgbCases, colorForRGB a = colorForRGB b → a = b) ∧
    (∀ c : Nat, c < 16 → ∃ rgb ∈ rgbCases, colorForRGB rgb = some c) ∧
    (∀ rgb ∈ rgbCases,
      (colorForRGB rgb).bind (ColorTable.init native).get = some (u32 (native rgb))) := by
  refine ⟨colorForRGB_isSome_iff color, ?_, colorForRGB_low_bits color, rfl, colorForRGB_kth,
    ?_, colorForRGB_onto, ?_⟩
  · rw [← colorForRGB_isSome_iff color]
    cases colorForRGB color <;> simp
  · intro a ha b hb hab
    obtain ⟨ka, hka, ea⟩ := rgbCases_index a ha
    obtain ⟨kb, hkb, eb⟩ := rgbCases_index b hb
    rw [colorForRGB_of_index ka a hka ea, colorForRGB_of_index kb b hkb eb] at hab
    have hk : ka = kb := Option.some.inj hab
    subst hk
    rw [ea] at eb
    exact Option.some.inj eb
  · intro rgb hrgb
    obtain ⟨k, hk, e⟩ := rgbCases_index rgb hrgb
    rw [colorForRGB_of_index k rgb hk e]
    simp only [Option.some_bind, ColorTable.get, ColorTable.init, COLOR_COUNT, hk, if_true,
      List.getElem?_map, e, Option.map_some']

/-! ## Colors wider than four bits -/

set_option maxRecDepth 1000000 in
theorem wide_low_table : ∀ h < 16, ∀ c < 256,
    ((16 * h ||| c) % 256) % 16 = c % 16 ∧
    ((16 * h ||| c) % 256) / 16 % 16 = h ||| (c / 16) := by
  decide

set_option maxRecDepth 1000000 in
theorem wide_high_table : ∀ l < 16, ∀ c < 256,
    ((l ||| (c <<< 4)) % 256) / 16 % 16 = c % 16 ∧
    ((l ||| (c <<< 4)) % 256) % 16 = l := by
  decide

set_option maxRecDepth 1000000 in
theorem and_f0_table : ∀ w < 256, w &&& 0xf0 = 16 * (w / 16 % 16) := by
  decide

/-- The four nibble facts of `low(c)` and `high(c)` for an 8-bit `c`. -/
theorem nibble_facts_wide (v c : Nat) (hc : c < 256) :
    (u8 ((v &&& 0xf0) ||| c)) &&& 0x0f = c &&& 0x0f ∧
    ((u8 ((v &&& 0xf0) ||| c)) >>> 4) &&& 0x0f = ((v >>> 4) &&& 0x0f) ||| (c >>> 4) ∧
    ((u8 ((v &&& 0x0f) ||| (c <<< 4))) >>> 4) &&& 0x0f = c &&& 0x0f ∧
    (u8 ((v &&& 0x0f) ||| (c <<< 4))) &&& 0x0f = v &&& 0x0f := by
  have hw : v % 256 < 256 := Nat.mod_lt _ (by decide)
  have e1 : v &&& 0xf0 = 16 * (v / 16 % 16) := by
    rw [and_mask_mod v 0xf0 (by decide), and_f0_table (v % 256) hw]
    omega
  have hlo := wide_low_table (v / 16 % 16) (by omega) c hc
  have hhi := wide_high_table (v % 16) (by omega) c hc
  simp only [u8, and_0f_eq_mod, shr4_eq_div, Nat.reducePow]
  rw [e1]
  exact ⟨hlo.1, hlo.2, hhi.1, hhi.2⟩

/-- C11, as the code has it: for every pixel byte, every `x` and every 8-bit
color `c`, after `set(x,c)`, `low(c)` or `high(c)` the addressed nibble is
`c & 0x0F`; `high(c)` leaves the low nibble as it was, while `low(c)` leaves in
the high nibble its old value OR-ed with `c >> 4`, which is the old value when
`c` is in `[0,15]`. The color is not masked before it is stored. -/
theorem color_byte_store_wide (b : color_byte_t) (x : Int) (c : Nat) (hc : c ≤ 255) :
    (b.set x c).get x = c &&& 0x0F ∧
    ((b.setLow c).low = c &&& 0x0F ∧ (b.setLow c).high = b.high ||| (c >>> 4)) ∧
    ((b.setHigh c).high = c &&& 0x0F ∧ (b.setHigh c).low = b.low) ∧
    (c ≤ 15 → (b.setLow c).high = b.high) := by
  have h := nibble_facts_wide b.value c (by omega)
  refine ⟨?_, ⟨h.1, h.2.1⟩, ⟨h.2.2.1, h.2.2.2⟩, ?_⟩
  · unfold color_byte_t.get color_byte_t.set color_byte_t.low color_byte_t.high
    by_cases hx : Int.tmod x 2 = 0
    · simp only [hx, if_true]; exact h.1
    · simp only [hx, if_false]; exact h.2.2.1
  · intro h15
    exact (nibble_facts b.value c (by omega)).2.1

/-- Witness of C11: the byte `0x00` and the color `0x1F`. -/
theorem color_byte_store_wide_witness :
    (0x1F : Nat) ≤ 255 ∧
    (((color_byte_t.mk 0).set 0 0x1F).get 0 = 0x1F &&& 0x0F ∧
    (((color_byte_t.mk 0).setLow 0x1F).low = 0x1F &&& 0x0F ∧
      ((color_byte_t.mk 0).setLow 0x1F).high = (color_byte_t.mk 0).high ||| (0x1F >>> 4)) ∧
    (((color_byte_t.mk 0).setHigh 0x1F).high = 0x1F &&& 0x0F ∧
      ((color_byte_t.mk 0).setHigh 0x1F).low = (color_byte_t.mk 0).low) ∧
    ((0x1F : Nat) ≤ 15 → ((color_byte_t.mk 0).setLow 0x1F).high = (color_byte_t.mk 0).high)) :=
  ⟨by decide, color_byte_store_wide (color_byte_t.mk 0) 0 0x1F (by decide)⟩

/-- Counterexample to C11: on the byte `0x00`, `set(0, 0x1F)` and `low(0x1F)`
store `0x1F`, so the high nibble, which was `0`, reads `1`. -/
theorem color_byte_store_wide_counterexample :
    ((color_byte_t.mk 0).set 0 0x1F).value = 0x1F ∧
    ((color_byte_t.mk 0).set 0 0x1F).get 1 = 1 ∧ (color_byte_t.mk 0).get 1 = 0 ∧
    ((color_byte_t.mk 0).setLow 0x1F).high = 1 ∧ (color_byte_t.mk 0).high = 0 := by
  decide

/-! ## Reachable clip rectangles -/

theorem clip_reset_facts (r : clip_rect_t) :
    r.reset.wellFormed ∧
    (r.reset.x0 < 256 ∧ r.reset.y0 < 256 ∧ r.reset.x1 < 256 ∧ r.reset.y1 < 256) := by
  have e : r.reset = ⟨0, 0, 128, 128⟩ := rfl
  rw [e]
  decide

theorem clip_call_eightBit_bounds (r : clip_rect_t) (call : clip_call)
    (_hr : r.x0 < 256 ∧ r.y0 < 256 ∧ r.x1 < 256 ∧ r.y1 < 256) :
    (r.call call).x0 < 256 ∧ (r.call call).y0 < 256 ∧ (r.call call).x1 < 256 ∧
      (r.call call).y1 < 256 := by
  cases call with
  | reset => exact (clip_reset_facts r).2
  | set xs ys xe ye =>
    simp only [clip_rect_t.call, clip_rect_t.set, u8]
    omega

theorem clip_call_wellFormed (r : clip_rect_t) (call : clip_call)
    (h8 : call.eightBit) (hw : call.wellFormedArgs) : (r.call call).wellFormed := by
  cases call with
  | reset => exact (clip_reset_facts r).1
  | set xs ys xe ye =>
    obtain ⟨h1, h2, h3, h4⟩ := h8
    have e := (clip_rect_reset_set_aux r xs ys xe ye h1 h2 h3 h4)
    simp only [clip_rect_t.call, e]
    exact hw

theorem clip_foldl_bounds (cs : List clip_call) :
    ∀ r : clip_rect_t, (r.x0 < 256 ∧ r.y0 < 256 ∧ r.x1 < 256 ∧ r.y1 < 256) →
      (cs.foldl clip_rect_t.call r).x0 < 256 ∧ (cs.foldl clip_rect_t.call r).y0 < 256 ∧
      (cs.foldl clip_rect_t.call r).x1 < 256 ∧ (cs.foldl clip_rect_t.call r).y1 < 256 := by
  induction cs with
  | nil => intro r hr; exact hr
  | cons call t ih =>
    intro r hr
    exact ih (r.call call) (clip_call_eightBit_bounds r call hr)

theorem clip_foldl_wellFormed (cs : List clip_call)
    (h8 : ∀ call ∈ cs, call.eightBit) (hw : ∀ call ∈ cs, call.wellFormedArgs) :
    ∀ r : clip_rect_t, r.wellFormed → (cs.foldl clip_rect_t.call r).wellFormed := by
  induction cs with
  | nil => intro r hr; exact hr
  | cons call t ih =>
    intro r _
    exact ih (fun k hk => h8 k (List.mem_cons_of_mem _ hk))
      (fun k hk => hw k (List.mem_cons_of_mem _ hk)) (r.call call)
      (clip_call_wellFormed r call (h8 call (List.mem_cons_self _ _))
        (hw call (List.mem_cons_self _ _)))

/-- C12, as the code has it: every clip rectangle reached from `reset()` by
`reset()` and `set(xs,ys,xe,ye)` calls with 8-bit arguments has its four bounds
in `[0,255]`; `reset()` leaves a rectangle that satisfies the ClipRect
invariant, and the rectangle reached satisfies it when the arguments of every
`set` call do, `set` storing its arguments without a test. -/
theorem clip_rect_reachable (r : clip_rect_t) (cs : List clip_call)
    (h8 : ∀ call ∈ cs, call.eightBit) :
    ((r.afterCalls cs).x0 ≤ 255 ∧ (r.afterCalls cs).y0 ≤ 255 ∧
      (r.afterCalls cs).x1 ≤ 255 ∧ (r.afterCalls cs).y1 ≤ 255) ∧
    r.reset.wellFormed ∧
    ((∀ call ∈ cs, call.wellFormedArgs) → (r.afterCalls cs).wellFormed) := by
  refine ⟨?_, (clip_reset_facts r).1, ?_⟩
  · have h := clip_foldl_bounds cs r.reset (clip_reset_facts r).2
    unfold clip_rect_t.afterCalls
    omega
  · intro hw
    exact clip_foldl_wellFormed cs h8 hw r.reset (clip_reset_facts r).1

/-- Witness of C12: `set(10,20,100,128)` then `reset()` then `set(0,0,64,64)`. -/
theorem clip_rect_reachable_witness :
    (∀ call ∈ [clip_call.set 10 20 100 128, clip_call.reset, clip_call.set 0 0 64 64],
      call.eightBit) ∧
    ((((clip_rect_t.mk 9 9 9 9).afterCalls
          [clip_call.set 10 20 100 128, clip_call.reset, clip_call.set 0 0 64 64]).x0 ≤ 255 ∧
      ((clip_rect_t.mk 9 9 9 9).afterCalls
          [clip_call.set 10 20 100 128, clip_call.reset, clip_call.set 0 0 64 64]).y0 ≤ 255 ∧
      ((clip_rect_t.mk 9 9 9 9).afterCalls
          [clip_call.set 10 20 100 128, clip_call.reset, clip_call.set 0 0 64 64]).x1 ≤ 255 ∧
      ((clip_rect_t.mk 9 9 9 9).afterCalls
          [clip_call.set 10 20 100 128, clip_call.reset, clip_call.set 0 0 64 64]).y1 ≤ 255) ∧
     (clip_rect_t.mk 9 9 9 9).reset.wellFormed ∧
     ((∀ call ∈ [clip_call.set 10 20 100 128, clip_call.reset, clip_call.set 0 0 64 64],
        call.wellFormedArgs) →
      ((clip_rect_t.mk 9 9 9 9).afterCalls
        [clip_call.set 10 20 100 128, clip_call.reset, clip_call.set 0 0 64 64]).wellFormed)) :=
  ⟨by simp [clip_call.eightBit],
   clip_rect_reachable (clip_rect_t.mk 9 9 9 9)
    [clip_call.set 10 20 100 128, clip_call.reset, clip_call.set 0 0 64 64]
    (by simp [clip_call.eightBit])⟩

/-- Counterexample to C12: `reset()` followed by `set(200,10,5,255)` leaves
`(200,10,5,255)`, where `x0 > 128`, `y1 > 128` and `x0 > x1`. -/
theorem clip_rect_reachable_counterexample :
    (clip_call.set 200 10 5 255).eightBit ∧
    (clip_rect_t.mk 0 0 0 0).afterCalls [clip_call.set 200 10 5 255] = ⟨200, 10, 5, 255⟩ ∧
    ¬ ((clip_rect_t.mk 0 0 0 0).afterCalls [clip_call.set 200 10 5 255]).wellFormed := by
  refine ⟨?_, by decide, by decide⟩
  simp [clip_call.eightBit]

/-! ## Glyph lookup -/

/-- C13: `Font::glyph(c)` uses `c` itself as the subscript into the array of
`FONT_GLYPHS_ROWS*FONT_GLYPHS_COLUMNS = 160` glyphs: the access is inside the
array exactly when `0 ≤ c < 160`, where it is entry `c`, and for every other
code, those of `[160,255)` among them, it is outside the array, with no
fallback glyph. -/
theorem font_glyph_subscript (f : Font) (c : Int) (hf : f.glyphs.length = 160) :
    FONT_GLYPHS_ROWS * FONT_GLYPHS_COLUMNS = 160 ∧
    ((f.glyph c).isSome = true ↔ 0 ≤ c ∧ c < 160) ∧
    (0 ≤ c → c < 160 → f.glyph c = f.glyphs[c.toNat]? ∧ c.toNat < f.glyphs.length) ∧
    (160 ≤ c → c < 255 → f.glyph c = none) ∧
    (c < 0 → f.glyph c = none) := by
  have hn : ((FONT_GLYPHS_ROWS * FONT_GLYPHS_COLUMNS : Nat) : Int) = 160 := by decide
  refine ⟨by decide, ?_, ?_, ?_, ?_⟩
  · unfold Font.glyph
    rw [hn]
    by_cases h : 0 ≤ c ∧ c < 160
    · have hk : c.toNat < f.glyphs.length := by omega
      simp [h, List.getElem?_eq_getElem hk]
    · simp [h]
  · intro h0 h1
    unfold Font.glyph
    rw [hn]
    exact ⟨by simp [h0, h1], by omega⟩
  · intro h0 _
    unfold Font.glyph
    rw [hn]
    have : ¬ (0 ≤ c ∧ c < 160) := by omega
    simp [this]
  · intro h0
    unfold Font.glyph
    rw [hn]
    have : ¬ (0 ≤ c ∧ c < 160) := by omega
    simp [this]

/-- Witness of C13: a font of 160 empty glyphs and the code 200. -/
theorem font_glyph_subscript_witness :
    (Font.mk (List.replicate 160 (sequential_sprite_t.mk []))).glyphs.length = 160 ∧
    (FONT_GLYPHS_ROWS * FONT_GLYPHS_COLUMNS = 160 ∧
    (((Font.mk (List.replicate 160 (sequential_sprite_t.mk []))).glyph 200).isSome = true ↔
      (0 : Int) ≤ 200 ∧ (200 : Int) < 160) ∧
    ((0 : Int) ≤ 200 → (200 : Int) < 160 →
      (Font.mk (List.replicate 160 (sequential_sprite_t.mk []))).glyph 200 =
        (Font.mk (List.replicate 160 (sequential_sprite_t.mk []))).glyphs[(200 : Int).toNat]? ∧
      (200 : Int).toNat < (Font.mk (List.replicate 160 (sequential_sprite_t.mk []))).glyphs.length) ∧
    ((160 : Int) ≤ 200 → (200 : Int) < 255 →
      (Font.mk (List.replicate 160 (sequential_sprite_t.mk []))).glyph 200 = none) ∧
    ((200 : Int) < 0 →
      (Font.mk (List.replicate 160 (sequential_sprite_t.mk []))).glyph 200 = none)) :=
  ⟨by simp only [List.length_replicate],
   font_glyph_subscript (Font.mk (List.replicate 160 (sequential_sprite_t.mk []))) 200
    (by simp only [List.length_replicate])⟩

/-! ## The buffer of a standalone sprite -/

/-- C19: for every `(x,y)` with `0 ≤ x < 8` and `0 ≤ y < 8`, and so for every
glyph pixel, the subscript `y*4 + x/2` computed by
`sequential_sprite_t::byteAt` lies in `[0,32)`, so `get` and `set` stay inside
the 32-byte buffer. -/
theorem sequential_byteAt_in_buffer (q : sequential_sprite_t) (x y : Int) (c : Nat)
    (hq : q.data.length = 32) (hx0 : 0 ≤ x) (hx : x < 8) (hy0 : 0 ≤ y) (hy : y < 8) :
    (sequential_sprite_t.byteIndex x y : Int) = y * 4 + x / 2 ∧
    sequential_sprite_t.byteIndex x y < 32 ∧
    (q.byteAt x y).isSome = true ∧ (q.get x y).isSome = true ∧
    (∃ q', q.set x y c = some q' ∧ q'.data.length = 32) ∧
    GLYPH_WIDTH ≤ 8 ∧ GLYPH_HEIGHT ≤ 8 := by
  have hoff := sequential_byteIndex_inbounds x y hx0 hx hy0 hy
  have hlt : sequential_sprite_t.byteIndex x y < 32 := by rw [hoff]; omega
  have hk : sequential_sprite_t.byteIndex x y < q.data.length := by omega
  have hb : q.byteAt x y = some q.data[sequential_sprite_t.byteIndex x y] := by
    simp [sequential_sprite_t.byteAt, hlt, List.getElem?_eq_getElem hk]
  refine ⟨by rw [hoff]; omega, hlt, by simp [hb], by simp [sequential_sprite_t.get, hb], ?_,
    by decide, by decide⟩
  refine ⟨⟨q.data.set (sequential_sprite_t.byteIndex x y)
    ((q.data[sequential_sprite_t.byteIndex x y]).set x c)⟩, ?_, ?_⟩
  · simp only [sequential_sprite_t.set, hb, Option.map_some']
  · simp only [List.length_set, hq]

/-- Witness of C19: the all-zero sprite and the last glyph pixel `(3,5)`. -/
theorem sequential_byteAt_in_buffer_witness :
    ((sequential_sprite_t.mk (List.replicate 32 (color_byte_t.mk 0))).data.length = 32 ∧
      (0 : Int) ≤ 3 ∧ (3 : Int) < 8 ∧ (0 : Int) ≤ 5 ∧ (5 : Int) < 8) ∧
    ((sequential_sprite_t.byteIndex 3 5 : Int) = 5 * 4 + 3 / 2 ∧
    sequential_sprite_t.byteIndex 3 5 < 32 ∧
    ((sequential_sprite_t.mk (List.replicate 32 (color_byte_t.mk 0))).byteAt 3 5).isSome = true ∧
    ((sequential_sprite_t.mk (List.replicate 32 (color_byte_t.mk 0))).get 3 5).isSome = true ∧
    (∃ q', (sequential_sprite_t.mk (List.replicate 32 (color_byte_t.mk 0))).set 3 5 7 = some q' ∧
      q'.data.length = 32) ∧
    GLYPH_WIDTH ≤ 8 ∧ GLYPH_HEIGHT ≤ 8) :=
  ⟨⟨by simp only [List.length_replicate], by decide, by decide, by decide, by decide⟩,
   sequential_byteAt_in_buffer (sequential_sprite_t.mk (List.replicate 32 (color_byte_t.mk 0)))
    3 5 7 (by simp only [List.length_replicate]) (by decide) (by decide) (by decide)
    (by decide)⟩

/-! ## Frame of the palette writes -/

/-- The byte written by `set(i, color)` and the bytes it leaves alone. -/
theorem palette_set_load (p : palette_t) (i c : Nat)
    (hp : p.colors.length = 16) (hi : i < 16) :
    ∃ b p', p.load i = some b ∧ p.set i c = some p' ∧ p'.colors.length = 16 ∧
      p'.load i = some (u8 (b ||| (c ||| (b &&& 0x10)))) ∧
      ∀ j, j ≠ i → p'.load j = p.load j := by
  obtain ⟨b, hl⟩ := palette_load_some p i hp hi
  obtain ⟨p', hs, hlen, hg, hother⟩ :=
    palette_store_load p i (b ||| (c ||| (b &&& 0x10))) hp hi
  refine ⟨b, p', hl, ?_, hlen, hg, hother⟩
  simp only [palette_t.set, hl, Option.some_bind]
  exact hs

/-- The byte written by `transparent(i, f)` and the bytes it leaves alone. -/
theorem palette_setTransparent_load (p : palette_t) (i : Nat) (f : Bool)
    (hp : p.colors.length = 16) (hi : i < 16) :
    ∃ b p', p.load i = some b ∧ p.setTransparent i f = some p' ∧ p'.colors.length = 16 ∧
      p'.load i = some (u8 (if f = true then b ||| 0x10 else b &&& 0x0f)) ∧
      ∀ j, j ≠ i → p'.load j = p.load j := by
  obtain ⟨b, hl⟩ := palette_load_some p i hp hi
  obtain ⟨p', hs, hlen, hg, hother⟩ :=
    palette_store_load p i (if f = true then b ||| 0x10 else b &&& 0x0f) hp hi
  refine ⟨b, p', hl, ?_, hlen, hg, hother⟩
  simp only [palette_t.setTransparent, hl, Option.some_bind]
  exact hs

/-- C14: for every palette state, every `i` and every color `c` in `[0,15]`,
`set(i,c)` leaves `transparent(i)` as it was and leaves the byte, hence the
display index and the transparency, of every `j ≠ i` as it was; and
`transparent(i,t)` leaves the byte of every `j ≠ i` as it was. -/
theorem palette_write_frame (p : palette_t) (i c : Nat) (t : Bool)
    (hp : p.colors.length = 16) (hi : i ≤ 15) (hc : c ≤ 15) :
    (∃ p', p.set i c = some p' ∧ p'.transparent i = p.transparent i ∧
      (p.transparent i).isSome = true ∧
      ∀ j : Nat, j ≠ i →
        p'.load j = p.load j ∧ p'.get j = p.get j ∧ p'.transparent j = p.transparent j) ∧
    (∃ p', p.setTransparent i t = some p' ∧
      ∀ j : Nat, j ≠ i →
        p'.load j = p.load j ∧ p'.get j = p.get j ∧ p'.transparent j = p.transparent j) := by
  constructor
  · obtain ⟨b, p', hl, hs, _, hg, hother⟩ := palette_set_load p i c hp (by omega)
    refine ⟨p', hs, ?_, ?_, ?_⟩
    · simp only [palette_t.transparent, hg, hl, Option.map_some']
      rw [(palette_set_facts b c (by omega)).2]
    · simp only [palette_t.transparent, hl, Option.map_some', Option.isSome_some]
    · intro j hj
      exact ⟨hother j hj, by simp only [palette_t.get, hother j hj],
        by simp only [palette_t.transparent, hother j hj]⟩
  · obtain ⟨b, p', _, hs, _, _, hother⟩ := palette_setTransparent_load p i t hp (by omega)
    refine ⟨p', hs, ?_⟩
    intro j hj
    exact ⟨hother j hj, by simp only [palette_t.get, hother j hj],
      by simp only [palette_t.transparent, hother j hj]⟩

/-- Witness of C14: the palette whose sixteen bytes are `0x1a`, index 5, color 4. -/
theorem palette_write_frame_witness :
    ((palette_t.mk (List.replicate 16 0x1a)).colors.length = 16 ∧ 5 ≤ 15 ∧ 4 ≤ 15) ∧
    ((∃ p', (palette_t.mk (List.replicate 16 0x1a)).set 5 4 = some p' ∧
      p'.transparent 5 = (palette_t.mk (List.replicate 16 0x1a)).transparent 5 ∧
      ((palette_t.mk (List.replicate 16 0x1a)).transparent 5).isSome = true ∧
      ∀ j : Nat, j ≠ 5 →
        p'.load j = (palette_t.mk (List.replicate 16 0x1a)).load j ∧
        p'.get j = (palette_t.mk (List.replicate 16 0x1a)).get j ∧
        p'.transparent j = (palette_t.mk (List.replicate 16 0x1a)).transparent j) ∧
    (∃ p', (palette_t.mk (List.replicate 16 0x1a)).setTransparent 5 false = some p' ∧
      ∀ j : Nat, j ≠ 5 →
        p'.load j = (palette_t.mk (List.replicate 16 0x1a)).load j ∧
        p'.get j = (palette_t.mk (List.replicate 16 0x1a)).get j ∧
        p'.transparent j = (palette_t.mk (List.replicate 16 0x1a)).transparent j)) :=
  ⟨⟨by decide, by decide, by decide⟩,
   palette_write_frame (palette_t.mk (List.replicate 16 0x1a)) 5 4 false
    (by decide) (by decide) (by decide)⟩

/-! ## One pixel per write -/

theorem sprite_byteOffset_nat (x y : Nat) (hx : x < 128) (hy : y < 128) :
    sprite_t.byteOffset (x : Int) (y : Int) = y * 64 + x / 2 := by
  rw [sprite_byteOffset_inbounds x y (by omega) (by omega) (by omega) (by omega)]
  simp

theorem sequential_byteIndex_nat (x y : Nat) (hx : x < 8) (hy : y < 8) :
    sequential_sprite_t.byteIndex (x : Int) (y : Int) = y * 4 + x / 2 := by
  rw [sequential_byteIndex_inbounds x y (by omega) (by omega) (by omega) (by omega)]
  simp

theorem tmod_two_natCast (x : Nat) : Int.tmod (x : Int) 2 = 0 ↔ x % 2 = 0 := by
  rw [tmod_two_eq_zero_iff]
  omega

/-- Two different pixels of one byte have opposite parity. -/
theorem same_byte_parity (x x' : Nat) (h2 : x / 2 = x' / 2) (hne : x ≠ x') :
    (Int.tmod (x : Int) 2 = 0 ↔ ¬ Int.tmod (x' : Int) 2 = 0) := by
  rw [tmod_two_natCast, tmod_two_natCast]
  omega

theorem sprite_set_other_aux (mem : List color_byte_t) (s : sprite_t) (x y x' y' c : Nat)
    (hmem : s.addr + 8192 ≤ mem.length) (hx : x < 128) (hy : y < 128)
    (hx' : x' < 128) (hy' : y' < 128) (hc : c ≤ 15) (hne : ¬ (x = x' ∧ y = y')) :
    ∃ mem', s.set mem x y c = some mem' ∧ s.get mem' x' y' = s.get mem x' y' ∧
      (s.get mem x' y').isSome = true := by
  have hoff := sprite_byteOffset_nat x y hx hy
  have hoff' := sprite_byteOffset_nat x' y' hx' hy'
  have hk : s.addr + (y * 64 + x / 2) < mem.length := by omega
  have hk' : s.addr + (y' * 64 + x' / 2) < mem.length := by omega
  have hget : mem[s.addr + (y * 64 + x / 2)]? = some mem[s.addr + (y * 64 + x / 2)] :=
    List.getElem?_eq_getElem hk
  have hget' : mem[s.addr + (y' * 64 + x' / 2)]? = some mem[s.addr + (y' * 64 + x' / 2)] :=
    List.getElem?_eq_getElem hk'
  refine ⟨mem.set (s.addr + (y * 64 + x / 2)) ((mem[s.addr + (y * 64 + x / 2)]).set x c),
    ?_, ?_, ?_⟩
  · simp [sprite_t.set, sprite_t.byteAt, hoff, hget]
  · by_cases hsame : y * 64 + x / 2 = y' * 64 + x' / 2
    · have hy2 : y = y' := by omega
      have hx2 : x / 2 = x' / 2 := by omega
      have hxne : x ≠ x' := fun h => hne ⟨h, hy2⟩
      simp only [sprite_t.get, sprite_t.byteAt, hoff', ← hsame, hget, Option.map_some',
        List.getElem?_set_self hk]
      exact congrArg some
        (color_byte_get_set_other _ _ _ _ (by omega) (same_byte_parity x x' hx2 hxne))
    · have hidx : s.addr + (y * 64 + x / 2) ≠ s.addr + (y' * 64 + x' / 2) := by omega
      simp only [sprite_t.get, sprite_t.byteAt, hoff', List.getElem?_set_ne hidx]
  · simp [sprite_t.get, sprite_t.byteAt, hoff', hget']

theorem sequential_set_other_aux (q : sequential_sprite_t) (u v u' v' c : Nat)
    (hq : q.data.length = 32) (hu : u < 8) (hv : v < 8)
    (hu' : u' < 8) (hv' : v' < 8) (hc : c ≤ 15) (hne : ¬ (u = u' ∧ v = v')) :
    ∃ q', q.set u v c = some q' ∧ q'.get u' v' = q.get u' v' ∧
      (q.get u' v').isSome = true := by
  have hoff := sequential_byteIndex_nat u v hu hv
  have hoff' := sequential_byteIndex_nat u' v' hu' hv'
  have hk : v * 4 + u / 2 < q.data.length := by omega
  have hk' : v' * 4 + u' / 2 < q.data.length := by omega
  have hk32 : v * 4 + u / 2 < 32 := by omega
  have hk32' : v' * 4 + u' / 2 < 32 := by omega
  have hget : q.data[v * 4 + u / 2]? = some q.data[v * 4 + u / 2] :=
    List.getElem?_eq_getElem hk
  have hget' : q.data[v' * 4 + u' / 2]? = some q.data[v' * 4 + u' / 2] :=
    List.getElem?_eq_getElem hk'
  refine ⟨⟨q.data.set (v * 4 + u / 2) ((q.data[v * 4 + u / 2]).set u c)⟩, ?_, ?_, ?_⟩
  · simp [sequential_sprite_t.set, sequential_sprite_t.byteAt, hoff, hget, hk32]
  · by_cases hsame : v * 4 + u / 2 = v' * 4 + u' / 2
    · have hv2 : v = v' := by omega
      have hu2 : u / 2 = u' / 2 := by omega
      have hune : u ≠ u' := fun h => hne ⟨h, hv2⟩
      simp only [sequential_sprite_t.get, sequential_sprite_t.byteAt, hoff', ← hsame, hget,
        hk32, if_true, Option.map_some', List.getElem?_set_self hk]
      exact congrArg some
        (color_byte_get_set_other _ _ _ _ (by omega) (same_byte_parity u u' hu2 hune))
    · simp only [sequential_sprite_t.get, sequential_sprite_t.byteAt, hoff', hk32', if_true,
        List.getElem?_set_ne hsame]
  · simp [sequential_sprite_t.get, sequential_sprite_t.byteAt, hoff', hget', hk32']

/-- C15: for `sprite_t` over the 128x128 sheet and `sequential_sprite_t` over
8x8, an in-bounds pixel is determined by its byte subscript and its parity, and
for every in-bounds `(x,y)`, every `c` in `[0,15]` and every other in-bounds
pixel `(x',y')`, `get(x',y')` returns after `set(x,y,c)` what it returned
before. -/
theorem sprite_set_one_pixel (mem : List color_byte_t) (s : sprite_t)
    (q : sequential_sprite_t) (x y x' y' u v u' v' c : Nat)
    (hmem : s.addr + 8192 ≤ mem.length) (hq : q.data.length = 32)
    (hx : x < 128) (hy : y < 128) (hx' : x' < 128) (hy' : y' < 128)
    (hu : u < 8) (hv : v < 8) (hu' : u' < 8) (hv' : v' < 8) (hc : c ≤ 15) :
    ((sprite_t.byteOffset x y = sprite_t.byteOffset x' y' ∧
        (Int.tmod (x : Int) 2 = 0 ↔ Int.tmod (x' : Int) 2 = 0)) → x = x' ∧ y = y') ∧
    ((sequential_sprite_t.byteIndex u v = sequential_sprite_t.byteIndex u' v' ∧
        (Int.tmod (u : Int) 2 = 0 ↔ Int.tmod (u' : Int) 2 = 0)) → u = u' ∧ v = v') ∧
    (¬ (x = x' ∧ y = y') →
      ∃ mem', s.set mem x y c = some mem' ∧ s.get mem' x' y' = s.get mem x' y' ∧
        (s.get mem x' y').isSome = true) ∧
    (¬ (u = u' ∧ v = v') →
      ∃ q', q.set u v c = some q' ∧ q'.get u' v' = q.get u' v' ∧
        (q.get u' v').isSome = true) := by
  refine ⟨?_, ?_, fun hne => sprite_set_other_aux mem s x y x' y' c hmem hx hy hx' hy' hc hne,
    fun hne => sequential_set_other_aux q u v u' v' c hq hu hv hu' hv' hc hne⟩
  · rintro ⟨hoff, hpar⟩
    rw [sprite_byteOffset_nat x y hx hy, sprite_byteOffset_nat x' y' hx' hy'] at hoff
    rw [tmod_two_natCast, tmod_two_natCast] at hpar
    omega
  · rintro ⟨hoff, hpar⟩
    rw [sequential_byteIndex_nat u v hu hv, sequential_byteIndex_nat u' v' hu' hv'] at hoff
    rw [tmod_two_natCast, tmod_two_natCast] at hpar
    omega

/-- Witness of C15: the all-zero sheet and sprite, pixel (5,3) set to color 7,
pixel (4,3) of the same byte read. -/
theorem sprite_set_one_pixel_witness :
    ((sprite_t.mk 0).addr + 8192 ≤ (List.replicate 8192 (color_byte_t.mk 0)).length ∧ (sequential_sprite_t.mk (List.replicate 32 (color_byte_t.mk 0))).data.length = 32) ∧
    (((sprite_t.byteOffset ((5 : Nat) : Int) ((3 : Nat) : Int) = sprite_t.byteOffset ((4 : Nat) : Int) ((3 : Nat) : Int) ∧
        (Int.tmod ((5 : Nat) : Int) 2 = 0 ↔ Int.tmod ((4 : Nat) : Int) 2 = 0)) → 5 = 4 ∧ 3 = 3) ∧
    ((sequential_sprite_t.byteIndex ((5 : Nat) : Int) ((3 : Nat) : Int) =
        sequential_sprite_t.byteIndex ((4 : Nat) : Int) ((3 : Nat) : Int) ∧
        (Int.tmod ((5 : Nat) : Int) 2 = 0 ↔ Int.tmod ((4 : Nat) : Int) 2 = 0)) → 5 = 4 ∧ 3 = 3) ∧
    (¬ (5 = 4 ∧ 3 = 3) →
      ∃ mem', (sprite_t.mk 0).set (List.replicate 8192 (color_byte_t.mk 0)) ((5 : Nat) : Int) ((3 : Nat) : Int) 7 = some mem' ∧
        (sprite_t.mk 0).get mem' ((4 : Nat) : Int) ((3 : Nat) : Int) = (sprite_t.mk 0).get (List.replicate 8192 (color_byte_t.mk 0)) ((4 : Nat) : Int) ((3 : Nat) : Int) ∧
        ((sprite_t.mk 0).get (List.replicate 8192 (color_byte_t.mk 0)) ((4 : Nat) : Int) ((3 : Nat) : Int)).isSome = true) ∧
    (¬ (5 = 4 ∧ 3 = 3) →
      ∃ q', (sequential_sprite_t.mk (List.replicate 32 (color_byte_t.mk 0))).set ((5 : Nat) : Int) ((3 : Nat) : Int) 7 = some q' ∧
        q'.get ((4 : Nat) : Int) ((3 : Nat) : Int) = (sequential_sprite_t.mk (List.replicate 32 (color_byte_t.mk 0))).get ((4 : Nat) : Int) ((3 : Nat) : Int) ∧
        ((sequential_sprite_t.mk (List.replicate 32 (color_byte_t.mk 0))).get ((4 : Nat) : Int) ((3 : Nat) : Int)).isSome = true)) :=
  ⟨⟨by simp only [List.length_replicate]; decide, by simp only [List.length_replicate]⟩,
   sprite_set_one_pixel (List.replicate 8192 (color_byte_t.mk 0)) (sprite_t.mk 0) (sequential_sprite_t.mk (List.replicate 32 (color_byte_t.mk 0))) 5 3 4 3 5 3 4 3 7
    (by simp only [List.length_replicate]; decide) (by simp only [List.length_replicate])
    (by decide) (by decide) (by decide) (by decide) (by decide) (by decide) (by decide)
    (by decide) (by decide)⟩

/-! ## A tile view and the whole-sheet view -/

/-- Writes and reads of a byte depend on the coordinate through its parity. -/
theorem color_byte_same_parity (b : color_byte_t) (x x' : Int) (c : Nat)
    (hpar : Int.tmod x 2 = 0 ↔ Int.tmod x' 2 = 0) :
    b.get x = b.get x' ∧ b.set x c = b.set x' c := by
  unfold color_byte_t.get color_byte_t.set
  by_cases hx : Int.tmod x 2 = 0
  · have hx' : Int.tmod x' 2 = 0 := hpar.mp hx
    simp only [hx, hx', if_true, and_self]
  · have hx' : ¬ Int.tmod x' 2 = 0 := fun h => hx (hpar.mpr h)
    simp only [hx, hx', if_false, and_self]

/-- C18: a `sprite_t` view based `row*8*64 + col*4` bytes after the sheet, with
`col`, `row` in `[0,16)`, addresses the storage of the whole-sheet view: for
`x`, `y` in `[0,8)` its `byteAt(x,y)` is the sheet byte at
`(8*row+y)*64 + (8*col+x)/2`, with the same nibble, so `get(x,y)` of the view
is `get(8*col+x, 8*row+y)` of the sheet, `set` through one is `set` through the
other, and each reads back the color the other wrote. -/
theorem sprite_tile_view (mem : List color_byte_t) (sheet view : sprite_t)
    (col row x y c : Nat)
    (hview : view.addr = sheet.addr + row * 8 * 64 + col * 4)
    (hmem : sheet.addr + 8192 ≤ mem.length)
    (hcol : col < 16) (hrow : row < 16) (hx : x < 8) (hy : y < 8) (hc : c ≤ 15) :
    view.addr + sprite_t.byteOffset x y =
      sheet.addr + ((8 * row + y) * 64 + (8 * col + x) / 2) ∧
    (Int.tmod (x : Int) 2 = 0 ↔ Int.tmod ((8 * col + x : Nat) : Int) 2 = 0) ∧
    view.byteAt mem x y = sheet.byteAt mem ((8 * col + x : Nat) : Int) ((8 * row + y : Nat) : Int) ∧
    view.get mem x y = sheet.get mem ((8 * col + x : Nat) : Int) ((8 * row + y : Nat) : Int) ∧
    view.set mem x y c =
      sheet.set mem ((8 * col + x : Nat) : Int) ((8 * row + y : Nat) : Int) c ∧
    ∃ mem', view.set mem x y c = some mem' ∧
      sheet.get mem' ((8 * col + x : Nat) : Int) ((8 * row + y : Nat) : Int) = some c ∧
      view.get mem' x y = some c := by
  have hoffv := sprite_byteOffset_nat x y (by omega) (by omega)
  have hoffs := sprite_byteOffset_nat (8 * col + x) (8 * row + y) (by omega) (by omega)
  have hpar : Int.tmod (x : Int) 2 = 0 ↔ Int.tmod ((8 * col + x : Nat) : Int) 2 = 0 := by
    rw [tmod_two_natCast, tmod_two_natCast]
    omega
  have hidx : view.addr + (y * 64 + x / 2) =
      sheet.addr + ((8 * row + y) * 64 + (8 * col + x) / 2) := by omega
  have hbyte : view.byteAt mem x y =
      sheet.byteAt mem ((8 * col + x : Nat) : Int) ((8 * row + y : Nat) : Int) := by
    simp only [sprite_t.byteAt, hoffv, hoffs, hidx]
  have hgetEq : view.get mem x y =
      sheet.get mem ((8 * col + x : Nat) : Int) ((8 * row + y : Nat) : Int) := by
    unfold sprite_t.get
    rw [hbyte]
    congr 1
    funext b
    exact (color_byte_same_parity b _ _ 0 hpar).1
  have hsetEq : view.set mem x y c =
      sheet.set mem ((8 * col + x : Nat) : Int) ((8 * row + y : Nat) : Int) c := by
    unfold sprite_t.set
    rw [hbyte, hoffv, hoffs, hidx]
    congr 1
    funext b
    rw [(color_byte_same_parity b _ _ c hpar).2]
  refine ⟨by rw [hoffv]; exact hidx, hpar, hbyte, hgetEq, hsetEq, ?_⟩
  obtain ⟨mem', h1, h2, _, _⟩ :=
    sprite_set_get_aux mem sheet (8 * col + x) (8 * row + y) c hmem (by omega) (by omega) hc
  refine ⟨mem', by rw [hsetEq]; exact h1, h2, ?_⟩
  have h3 : view.byteAt mem' x y =
      sheet.byteAt mem' ((8 * col + x : Nat) : Int) ((8 * row + y : Nat) : Int) := by
    simp only [sprite_t.byteAt, hoffv, hoffs, hidx]
  unfold sprite_t.get at h2 ⊢
  rw [h3]
  cases hb : sheet.byteAt mem' ((8 * col + x : Nat) : Int) ((8 * row + y : Nat) : Int) with
  | none => rw [hb] at h2; exact absurd h2 (by simp)
  | some b =>
    rw [hb] at h2
    simp only [Option.map_some', Option.some.injEq] at h2 ⊢
    rw [(color_byte_same_parity b _ _ 0 hpar).1]
    exact h2

/-- Witness of C18: the all-zero sheet, the tile in column 3 of row 2, its
pixel (5,6) and the color 9. -/
theorem sprite_tile_view_witness :
    ((sprite_t.mk 1036).addr = (sprite_t.mk 0).addr + 2 * 8 * 64 + 3 * 4 ∧ (sprite_t.mk 0).addr + 8192 ≤ (List.replicate 8192 (color_byte_t.mk 0)).length) ∧
    ((sprite_t.mk 1036).addr + sprite_t.byteOffset ((5 : Nat) : Int) ((6 : Nat) : Int) =
      (sprite_t.mk 0).addr + ((8 * 2 + 6) * 64 + (8 * 3 + 5) / 2) ∧
    (Int.tmod ((5 : Nat) : Int) 2 = 0 ↔ Int.tmod ((8 * 3 + 5 : Nat) : Int) 2 = 0) ∧
    (sprite_t.mk 1036).byteAt (List.replicate 8192 (color_byte_t.mk 0)) ((5 : Nat) : Int) ((6 : Nat) : Int) = (sprite_t.mk 0).byteAt (List.replicate 8192 (color_byte_t.mk 0)) ((8 * 3 + 5 : Nat) : Int) ((8 * 2 + 6 : Nat) : Int) ∧
    (sprite_t.mk 1036).get (List.replicate 8192 (color_byte_t.mk 0)) ((5 : Nat) : Int) ((6 : Nat) : Int) = (sprite_t.mk 0).get (List.replicate 8192 (color_byte_t.mk 0)) ((8 * 3 + 5 : Nat) : Int) ((8 * 2 + 6 : Nat) : Int) ∧
    (sprite_t.mk 1036).set (List.replicate 8192 (color_byte_t.mk 0)) ((5 : Nat) : Int) ((6 : Nat) : Int) 9 = (sprite_t.mk 0).set (List.replicate 8192 (color_byte_t.mk 0)) ((8 * 3 + 5 : Nat) : Int) ((8 * 2 + 6 : Nat) : Int) 9 ∧
    ∃ mem', (sprite_t.mk 1036).set (List.replicate 8192 (color_byte_t.mk 0)) ((5 : Nat) : Int) ((6 : Nat) : Int) 9 = some mem' ∧
      (sprite_t.mk 0).get mem' ((8 * 3 + 5 : Nat) : Int) ((8 * 2 + 6 : Nat) : Int) = some 9 ∧
      (sprite_t.mk 1036).get mem' ((5 : Nat) : Int) ((6 : Nat) : Int) = some 9) :=
  ⟨⟨by decide, by simp only [List.length_replicate]; decide⟩,
   sprite_tile_view (List.replicate 8192 (color_byte_t.mk 0)) (sprite_t.mk 0) (sprite_t.mk 1036) 3 2 5 6 9 (by decide)
    (by simp only [List.length_replicate]; decide) (by decide) (by decide) (by decide)
    (by decide) (by decide)⟩

/-! ## The packed palette entry -/

theorem palette_load_lt (p : palette_t) (j b : Nat) (h : p.load j = some b) : j < 16 := by
  unfold palette_t.load at h
  by_cases hj : j < COLOR_COUNT
  · exact hj
  · simp [hj] at h

theorem palette_packed_of_loads (p : palette_t) (hp : p.colors.length = 16)
    (h : ∀ j b, p.load j = some b → b < 32) : p.packed := by
  refine ⟨hp, ?_⟩
  intro b hb
  obtain ⟨n, hn, e⟩ := List.getElem_of_mem hb
  have hn16 : n < COLOR_COUNT := by
    have : COLOR_COUNT = 16 := rfl
    omega
  refine h n b ?_
  simp only [palette_t.load, hn16, if_true, List.getElem?_eq_getElem hn, e]

set_option maxRecDepth 1000000 in
theorem packed_byte_table : ∀ b < 32,
    (∀ c < 16, u8 (b ||| (c ||| (b &&& 0x10))) = b ||| c ∧ b ||| c < 32 ∧
      (b ||| c) &&& 0x0F = (b &&& 0x0F) ||| c) ∧
    u8 (b ||| 0x10) < 32 ∧ u8 (b &&& 0x0f) < 32 ∧
    b = (b &&& 0x0F) + (if (b &&& 0x10 != 0) = true then 16 else 0) := by
  decide

theorem palette_store_inv (p : palette_t) (i v : Nat) (hp : p.colors.length = 16)
    (hi : i < 16) (hinv : ∀ j b, p.load j = some b → b < 32) (hv : u8 v < 32) :
    ∃ p', p.store i v = some p' ∧ p'.colors.length = 16 ∧
      ∀ j b, p'.load j = some b → b < 32 := by
  obtain ⟨p', hs, hlen, hsame, hother⟩ := palette_store_load p i v hp hi
  refine ⟨p', hs, hlen, ?_⟩
  intro j b h
  by_cases hj : j = i
  · subst hj
    rw [hsame] at h
    have hb : u8 v = b := Option.some.inj h
    omega
  · rw [hother j hj] at h
    exact hinv j b h

theorem palette_set_inv (p : palette_t) (i c : Nat) (hp : p.colors.length = 16)
    (hi : i < 16) (hc : c < 16) (hinv : ∀ j b, p.load j = some b → b < 32) :
    ∃ p', p.set i c = some p' ∧ p'.colors.length = 16 ∧
      ∀ j b, p'.load j = some b → b < 32 := by
  obtain ⟨b, hl⟩ := palette_load_some p i hp hi
  have hb : b < 32 := hinv i b hl
  have ht := ((packed_byte_table b hb).1 c hc)
  obtain ⟨p', hs, hlen, hinv'⟩ :=
    palette_store_inv p i (b ||| (c ||| (b &&& 0x10))) hp hi hinv (by rw [ht.1]; exact ht.2.1)
  refine ⟨p', ?_, hlen, hinv'⟩
  simp only [palette_t.set, hl, Option.some_bind]
  exact hs

theorem palette_setTransparent_inv (p : palette_t) (i : Nat) (f : Bool)
    (hp : p.colors.length = 16) (hi : i < 16)
    (hinv : ∀ j b, p.load j = some b → b < 32) :
    ∃ p', p.setTransparent i f = some p' ∧ p'.colors.length = 16 ∧
      ∀ j b, p'.load j = some b → b < 32 := by
  obtain ⟨b, hl⟩ := palette_load_some p i hp hi
  have hb : b < 32 := hinv i b hl
  have ht := packed_byte_table b hb
  have hv : u8 (if f = true then b ||| 0x10 else b &&& 0x0f) < 32 := by
    cases f
    · simp only [Bool.false_eq_true, if_false]; exact ht.2.2.1
    · simp only [if_true]; exact ht.2.1
  obtain ⟨p', hs, hlen, hinv'⟩ :=
    palette_store_inv p i (if f = true then b ||| 0x10 else b &&& 0x0f) hp hi hinv hv
  refine ⟨p', ?_, hlen, hinv'⟩
  simp only [palette_t.setTransparent, hl, Option.some_bind]
  exact hs

/-- After `reset()` every byte is below `0x20`, whatever the bytes were. -/
theorem palette_reset_inv (p : palette_t) (hp : p.colors.length = 16) :
    ∃ p', p.reset = some p' ∧ p'.colors.length = 16 ∧
      ∀ j b, p'.load j = some b → b < 32 := by
  obtain ⟨p1, hf, hlen1, hload⟩ :=
    palette_reset_loop (List.range 16) (fun i hi => List.mem_range.mp hi) p hp
  have hinv1 : ∀ j b, p1.load j = some b → b < 32 := by
    intro j b h
    have hj : j < 16 := palette_load_lt p1 j b h
    rw [hload j] at h
    simp only [List.mem_range, hj, if_true, Option.some.injEq] at h
    have : u8 j = j := Nat.mod_eq_of_lt (by omega)
    omega
  obtain ⟨p', hs, hlen, hinv⟩ := palette_setTransparent_inv p1 0 true hlen1 (by decide) hinv1
  refine ⟨p', ?_, hlen, hinv⟩
  simp only [palette_t.reset, COLOR_COUNT, color_t.BLACK, hf, Option.some_bind]
  exact hs

theorem palette_clear_loop_inv (l : List Nat) (hl : ∀ i ∈ l, i < 16) :
    ∀ p : palette_t, p.colors.length = 16 → (∀ j b, p.load j = some b → b < 32) →
      ∃ p', l.foldlM (fun (r : palette_t) (i : Nat) => r.setTransparent (u8 i) false) p
          = some p' ∧
        p'.colors.length = 16 ∧ ∀ j b, p'.load j = some b → b < 32 := by
  induction l with
  | nil =>
    intro p hp hinv
    exact ⟨p, rfl, hp, hinv⟩
  | cons i t ih =>
    intro p hp hinv
    have hi : i < 16 := hl i (List.mem_cons_self _ _)
    have hu : u8 i = i := Nat.mod_eq_of_lt (by omega)
    obtain ⟨p1, hs, hlen1, hinv1⟩ := palette_setTransparent_inv p i false hp hi hinv
    obtain ⟨p', hf, hlen, hinv'⟩ :=
      ih (fun k hk => hl k (List.mem_cons_of_mem _ hk)) p1 hlen1 hinv1
    refine ⟨p', ?_, hlen, hinv'⟩
    simp only [List.foldlM_cons, hu, hs, Option.bind_eq_bind, Option.some_bind]
    exact hf

theorem palette_resetTransparency_inv (p : palette_t) (hp : p.colors.length = 16)
    (hinv : ∀ j b, p.load j = some b → b < 32) :
    ∃ p', p.resetTransparency = some p' ∧ p'.colors.length = 16 ∧
      ∀ j b, p'.load j = some b → b < 32 := by
  obtain ⟨p1, hs, hlen1, hinv1⟩ := palette_setTransparent_inv p 0 true hp (by decide) hinv
  obtain ⟨p', hf, hlen, hinv'⟩ :=
    palette_clear_loop_inv (List.range' 1 15)
      (fun i hi => by have := List.mem_range'_1.mp hi; omega) p1 hlen1 hinv1
  refine ⟨p', ?_, hlen, hinv'⟩
  simp only [palette_t.resetTransparency, COLOR_COUNT, color_t.BLACK, hs, Option.some_bind]
  exact hf

theorem palette_call_inv (p : palette_t) (call : palette_call) (hr : call.inRange)
    (hp : p.colors.length = 16) (hinv : ∀ j b, p.load j = some b → b < 32) :
    ∃ p', p.call call = some p' ∧ p'.colors.length = 16 ∧
      ∀ j b, p'.load j = some b → b < 32 := by
  cases call with
  | reset => exact palette_reset_inv p hp
  | resetTransparency => exact palette_resetTransparency_inv p hp hinv
  | set i c =>
    have h : i ≤ 15 ∧ c ≤ 15 := hr
    exact palette_set_inv p i c hp (by omega) (by omega) hinv
  | transparent i f =>
    have h : i ≤ 15 := hr
    exact palette_setTransparent_inv p i f hp (by omega) hinv

theorem palette_calls_inv (cs : List palette_call) (hcs : ∀ call ∈ cs, call.inRange) :
    ∀ p : palette_t, p.colors.length = 16 → (∀ j b, p.load j = some b → b < 32) →
      ∃ p', cs.foldlM palette_t.call p = some p' ∧ p'.colors.length = 16 ∧
        ∀ j b, p'.load j = some b → b < 32 := by
  induction cs with
  | nil =>
    intro p hp hinv
    exact ⟨p, rfl, hp, hinv⟩
  | cons call t ih =>
    intro p hp hinv
    obtain ⟨p1, hs, hlen1, hinv1⟩ :=
      palette_call_inv p call (hcs call (List.mem_cons_self _ _)) hp hinv
    obtain ⟨p', hf, hlen, hinv'⟩ :=
      ih (fun k hk => hcs k (List.mem_cons_of_mem _ hk)) p1 hlen1 hinv1
    refine ⟨p', ?_, hlen, hinv'⟩
    simp only [List.foldlM_cons, hs, Option.bind_eq_bind, Option.some_bind]
    exact hf

/-- C17: in every palette state reached from `reset()` by `reset()`,
`resetTransparency()`, `set(i,c)` and `transparent(i,f)` calls with `i`, `c` in
`[0,15]`, each of the sixteen bytes is below `0x20` and equals
`get(i) + (transparent(i) ? 16 : 0)`. -/
theorem palette_packed_invariant (p : palette_t) (cs : List palette_call)
    (hp : p.colors.length = 16) (hcs : ∀ call ∈ cs, call.inRange) :
    ∃ r, p.afterCalls cs = some r ∧ r.packed ∧
      ∀ j : Nat, j ≤ 15 → ∃ b g t, r.load j = some b ∧ r.get j = some g ∧
        r.transparent j = some t ∧ b < 0x20 ∧ b = g + (if t = true then 16 else 0) := by
  obtain ⟨q, hq, hlenq, hinvq⟩ := palette_reset_inv p hp
  obtain ⟨r, hr, hlen, hinv⟩ := palette_calls_inv cs hcs q hlenq hinvq
  refine ⟨r, ?_, palette_packed_of_loads r hlen hinv, ?_⟩
  · simp only [palette_t.afterCalls, hq, Option.some_bind]
    exact hr
  · intro j hj
    obtain ⟨b, hl⟩ := palette_load_some r j hlen (by omega)
    have hb : b < 32 := hinv j b hl
    refine ⟨b, b &&& 0x0F, (b &&& 0x10 != 0), hl, ?_, ?_, hb, (packed_byte_table b hb).2.2.2⟩
    · simp only [palette_t.get, hl, Option.map_some']
    · simp only [palette_t.transparent, hl, Option.map_some']

/-- Witness of C17: from the palette whose sixteen bytes are `0xff`, the calls
`set(3,4)`, `transparent(3,true)`, `resetTransparency()`, `reset()`,
`set(15,15)`. -/
theorem palette_packed_invariant_witness :
    ((palette_t.mk (List.replicate 16 0xff)).colors.length = 16 ∧
      ∀ call ∈ [palette_call.set 3 4, palette_call.transparent 3 true, palette_call.resetTransparency,
        palette_call.reset, palette_call.set 15 15], call.inRange) ∧
    ∃ r, (palette_t.mk (List.replicate 16 0xff)).afterCalls
        [palette_call.set 3 4, palette_call.transparent 3 true, palette_call.resetTransparency,
        palette_call.reset, palette_call.set 15 15] = some r ∧ r.packed ∧
      ∀ j : Nat, j ≤ 15 → ∃ b g t, r.load j = some b ∧ r.get j = some g ∧
        r.transparent j = some t ∧ b < 0x20 ∧ b = g + (if t = true then 16 else 0) :=
  ⟨⟨by decide, by simp [palette_call.inRange]⟩,
   palette_packed_invariant (palette_t.mk (List.replicate 16 0xff))
    [palette_call.set 3 4, palette_call.transparent 3 true, palette_call.resetTransparency,
        palette_call.reset, palette_call.set 15 15]
    (by decide) (by simp [palette_call.inRange])⟩

/-! ## Accumulation of display bits -/

theorem palette_ext (r r' : palette_t) (hr : r.colors.length = 16)
    (hr' : r'.colors.length = 16) (h : ∀ j, r.load j = r'.load j) : r = r' := by
  obtain ⟨cs⟩ := r
  obtain ⟨cs'⟩ := r'
  congr 1
  apply List.ext_getElem?
  intro n
  by_cases hn : n < 16
  · have := h n
    have hc : n < COLOR_COUNT := hn
    simpa only [palette_t.load, hc, if_true] using this
  · simp only at hr hr'
    rw [List.getElem?_eq_none (by omega), List.getElem?_eq_none (by omega)]

theorem or_fold_facts (cs : List Nat) (hcs : ∀ c ∈ cs, c ≤ 15) :
    ∀ b : Nat, b < 32 →
      cs.foldl (fun a c => a ||| c) b < 32 ∧
      (cs.foldl (fun a c => a ||| c) b) &&& 0x0F = cs.foldl (fun a c => a ||| c) (b &&& 0x0F) := by
  induction cs with
  | nil => intro b hb; exact ⟨hb, rfl⟩
  | cons c t ih =>
    intro b hb
    have hc : c < 16 := by have := hcs c (List.mem_cons_self _ _); omega
    have ht := (packed_byte_table b hb).1 c hc
    have h := ih (fun k hk => hcs k (List.mem_cons_of_mem _ hk)) (b ||| c) ht.2.1
    simp only [List.foldl_cons]
    exact ⟨h.1, by rw [h.2, ht.2.2]⟩

/-- The byte of entry `i` after `set(i,c1)`, ..., `set(i,cn)` on a packed
palette, and the bytes the calls leave alone. -/
theorem palette_setAll_load (i : Nat) (hi : i < 16) (cs : List Nat) (hcs : ∀ c ∈ cs, c ≤ 15) :
    ∀ (q : palette_t) (b : Nat), q.colors.length = 16 → q.load i = some b → b < 32 →
      ∃ r, q.setAll i cs = some r ∧ r.colors.length = 16 ∧
        r.load i = some (cs.foldl (fun a c => a ||| c) b) ∧
        ∀ j, j ≠ i → r.load j = q.load j := by
  induction cs with
  | nil =>
    intro q b hq hl _
    exact ⟨q, rfl, hq, hl, fun _ _ => rfl⟩
  | cons c t ih =>
    intro q b hq hl hb
    have hc : c < 16 := by have := hcs c (List.mem_cons_self _ _); omega
    have ht := (packed_byte_table b hb).1 c hc
    obtain ⟨b0, q1, hl0, hs, hlen1, hg, hother⟩ := palette_set_load q i c hq hi
    have hb0 : b0 = b := by
      rw [hl] at hl0
      exact (Option.some.inj hl0).symm
    subst hb0
    rw [ht.1] at hg
    obtain ⟨r, hr, hlen, hload, hoth⟩ :=
      ih (fun k hk => hcs k (List.mem_cons_of_mem _ hk)) q1 (b0 ||| c) hlen1 hg ht.2.1
    refine ⟨r, ?_, hlen, ?_, ?_⟩
    · simp only [palette_t.setAll, List.foldlM_cons, hs, Option.bind_eq_bind, Option.some_bind]
      exact hr
    · simpa only [List.foldl_cons] using hload
    · intro j hj
      rw [hoth j hj, hother j hj]

set_option maxRecDepth 1000000 in
theorem set_twice_table : ∀ w < 256, ∀ c < 16,
    ((w ||| (c ||| (w &&& 0x10))) % 256 |||
      (c ||| ((w ||| (c ||| (w &&& 0x10))) % 256 &&& 0x10))) % 256 =
    (w ||| (c ||| (w &&& 0x10))) % 256 := by
  decide

theorem subset_bits_table : ∀ i < 16, ∀ c < 16, (i ||| c = c ↔ i &&& c = i) := by
  decide

/-- Writing the same color twice stores the byte of the first write. -/
theorem palette_set_byte_idem (b c : Nat) (hc : c < 16) :
    u8 (u8 (b ||| (c ||| (b &&& 0x10))) |||
      (c ||| (u8 (b ||| (c ||| (b &&& 0x10))) &&& 0x10))) =
    u8 (b ||| (c ||| (b &&& 0x10))) := by
  have hw : b % 256 < 256 := Nat.mod_lt _ (by decide)
  have h := set_twice_table (b % 256) hw c hc
  have e0 : b &&& 0x10 = (b % 256) &&& 0x10 := and_mask_mod b 0x10 (by decide)
  have e2 : (b ||| (c ||| (b &&& 0x10))) % 256 =
      (b % 256 ||| (c ||| (b % 256 &&& 0x10))) % 256 := by
    rw [or_mod_256, or_mod_256 (b % 256), e0]
    simp
  have e3 : ∀ z : Nat, z % 2 ^ 8 = z % 256 := fun _ => rfl
  simp only [u8, e3]
  rw [e2]
  exact h

theorem palette_set_idem (s : palette_t) (i c : Nat) (hs : s.colors.length = 16)
    (hi : i < 16) (hc : c < 16) :
    ∃ t, s.set i c = some t ∧ t.set i c = some t := by
  obtain ⟨b, t, _, hst, hlen, hg, _⟩ := palette_set_load s i c hs hi
  obtain ⟨b1, t2, hl1, hst2, hlen2, hg2, hother2⟩ := palette_set_load t i c hlen hi
  have hb1 : b1 = u8 (b ||| (c ||| (b &&& 0x10))) := by
    rw [hg] at hl1
    exact (Option.some.inj hl1).symm
  have heq : t2 = t := by
    apply palette_ext t2 t hlen2 hlen
    intro j
    by_cases hj : j = i
    · subst hj
      rw [hg2, hg, hb1, palette_set_byte_idem b c hc]
    · exact hother2 j hj
  exact ⟨t, hst, by rw [hst2, heq]⟩

/-- C16: after `reset()` followed by `set(i,c1)`, ..., `set(i,cn)` with `i` and
the colors in `[0,15]`, `get(i)` is `i | c1 | ... | cn`; the palette reached is
the same for every order of the colors; `set(i,c)` done twice leaves what it
left the first time; and after `reset()` and one `set(i,c)`, `get(i)` is `c`
exactly when every bit of `i` is set in `c`. -/
theorem palette_set_accumulates (p : palette_t) (i : Nat) (cs : List Nat)
    (hp : p.colors.length = 16) (hi : i ≤ 15) (hcs : ∀ c ∈ cs, c ≤ 15) :
    ∃ q, p.reset = some q ∧
      (∃ r, q.setAll i cs = some r ∧ r.get i = some (cs.foldl (fun a c => a ||| c) i)) ∧
      (∀ cs' : List Nat, cs.Perm cs' → q.setAll i cs' = q.setAll i cs) ∧
      (∀ (s : palette_t) (c : Nat), s.colors.length = 16 → c ≤ 15 →
        ∃ t, s.set i c = some t ∧ t.set i c = some t) ∧
      (∀ c : Nat, c ≤ 15 →
        ∃ r, q.set i c = some r ∧ (r.get i = some c ↔ i &&& c = i)) := by
  have hi16 : i < 16 := by omega
  obtain ⟨q, hq, hlenq, hinvq⟩ := palette_reset_inv p hp
  obtain ⟨q', hq', _, hget', _, _⟩ := palette_reset_spec p hp
  have hqq : q' = q := by
    rw [hq] at hq'
    exact (Option.some.inj hq').symm
  subst hqq
  have hget : q'.get i = some i := hget' i hi16
  obtain ⟨b, hl⟩ := palette_load_some q' i hlenq hi16
  have hb : b < 32 := hinvq i b hl
  have hbi : b &&& 0x0F = i := by
    simp only [palette_t.get, hl, Option.map_some', Option.some.injEq] at hget
    exact hget
  obtain ⟨r, hr, hlenr, hload, hoth⟩ := palette_setAll_load i hi16 cs hcs q' b hlenq hl hb
  refine ⟨q', hq, ⟨r, hr, ?_⟩, ?_, ?_, ?_⟩
  · simp only [palette_t.get, hload, Option.map_some']
    rw [(or_fold_facts cs hcs b hb).2, hbi]
  · intro cs' hperm
    have hcs' : ∀ c ∈ cs', c ≤ 15 := fun c hc => hcs c (hperm.mem_iff.mpr hc)
    obtain ⟨r', hr', hlenr', hload', hoth'⟩ :=
      palette_setAll_load i hi16 cs' hcs' q' b hlenq hl hb
    have hfold : cs.foldl (fun a c => a ||| c) b = cs'.foldl (fun a c => a ||| c) b :=
      List.Perm.foldl_eq' hperm
        (fun x _ y _ z => by
          show (z ||| x) ||| y = (z ||| y) ||| x
          rw [Nat.or_assoc, Nat.or_comm x y, ← Nat.or_assoc]) b
    have heq : r' = r := by
      apply palette_ext r' r hlenr' hlenr
      intro j
      by_cases hj : j = i
      · subst hj
        rw [hload', hload, hfold]
      · rw [hoth' j hj, hoth j hj]
    rw [hr', hr, heq]
  · intro s c hs hc
    exact palette_set_idem s i c hs hi16 (by omega)
  · intro c hc
    obtain ⟨old, r1, h1, h2, _, h3⟩ := palette_set_spec q' i c hlenq hi16 (by omega)
    have ho : old = i := by
      rw [hget] at h1
      exact (Option.some.inj h1).symm
    subst ho
    refine ⟨r1, h2, ?_⟩
    rw [h3]
    have ht := subset_bits_table old hi16 c (by omega)
    constructor
    · intro h
      exact ht.mp (Option.some.inj h)
    · intro h
      exact congrArg some (ht.mpr h)

/-- Witness of C16: from the palette whose sixteen bytes are `0xff`, index 3
and the colors 4 and 8. -/
theorem palette_set_accumulates_witness :
    ((palette_t.mk (List.replicate 16 0xff)).colors.length = 16 ∧ 3 ≤ 15 ∧ ∀ c ∈ [4, 8], c ≤ 15) ∧
    ∃ q, (palette_t.mk (List.replicate 16 0xff)).reset = some q ∧
      (∃ r, q.setAll 3 [4, 8] = some r ∧
        r.get 3 = some (([4, 8] : List Nat).foldl (fun a c => a ||| c) 3)) ∧
      (∀ cs' : List Nat, ([4, 8] : List Nat).Perm cs' → q.setAll 3 cs' = q.setAll 3 [4, 8]) ∧
      (∀ (s : palette_t) (c : Nat), s.colors.length = 16 → c ≤ 15 →
        ∃ t, s.set 3 c = some t ∧ t.set 3 c = some t) ∧
      (∀ c : Nat, c ≤ 15 →
        ∃ r, q.set 3 c = some r ∧ (r.get 3 = some c ↔ 3 &&& c = 3)) :=
  ⟨⟨by decide, by decide, by decide⟩,
   palette_set_accumulates (palette_t.mk (List.replicate 16 0xff)) 3 [4, 8] (by decide) (by decide) (by decide)⟩

end gfx
end retro8
